import Mathlib

/-!
Verification development for the pr-agent task orchestration engine.

The definitions below are a shallow embedding of the TypeScript sources:
  * `src/lib/rate-limiter.ts`  (token bucket limiter and retrying executor)
  * `src/lib/session.ts`       (session and task state machine)
  * `src/lib/plan-parser.ts`   (the plan status store used by the engine)
  * `src/lib/ship-engine.ts`   (single-session execution loop)

Modelling conventions:
  * JS numbers are modelled as rationals (`ℚ`); `Math.floor` / `Math.ceil` /
    `Math.round` become `Int.floor` / `Int.ceil` / `round`.
  * Division by zero in JS produces `Infinity`; the one place the embedded code
    can hit it with the inputs used by the claims (`retryAfter` with
    `refillRate = 0`) is modelled with `WithTop ℚ`, whose `⊤` stands for the
    JS `Infinity` value.
  * Strings are modelled as `List Char`; `String.prototype.includes` becomes
    `List.isInfixOf` and the completion-marker regex is implemented as an
    explicit leftmost-match scanner.
  * Wall-clock time (`Date.now()`) is an explicit parameter; an asynchronous
    sleep is modelled by moving to the next externally supplied timestamp.
  * Fields that are written but never read by the orchestration logic
    (ISO timestamp bookkeeping such as `updatedAt`, log files, the global
    background-job ledger) are omitted; they do not feed back into any
    state or result the claims mention.
-/

namespace PrAgent

/-! ## Token bucket rate limiter (`src/lib/rate-limiter.ts`) -/

/-- The `RateLimitConfig` from rate-limiter.ts. -/
structure RateLimitConfig where
  maxTokens : ℚ
  refillRate : ℚ
  refillInterval : ℚ
deriving DecidableEq

/-- The `RateLimitState`: the per-key bucket. The `Map<string, RateLimitState>`
keeps one independent bucket per key and every method touches only the bucket
of the key it is given, so the embedding carries a single bucket
(`Option RateLimitState`, `none` = no entry in the map yet). -/
structure RateLimitState where
  tokens : ℚ
  lastRefill : ℚ
deriving DecidableEq

/-- The `refillsNeeded * refillInterval` as computed in `consume`.  In JS,
`Math.ceil(tokensNeeded / refillRate)` with `refillRate = 0` and
`tokensNeeded > 0` is `Infinity`, modelled as `⊤`. -/
def retryAfterCalc (cfg : RateLimitConfig) (tokensNeeded : ℚ) : WithTop ℚ :=
  if cfg.refillRate = 0 then ⊤
  else (((⌈tokensNeeded / cfg.refillRate⌉ : ℚ) * cfg.refillInterval : ℚ) : WithTop ℚ)

/-- The `RateLimitResult` from rate-limiter.ts. -/
structure RateLimitResult where
  allowed : Bool
  tokensRemaining : ℤ
  retryAfter : Option (WithTop ℚ)
deriving DecidableEq

/-- The `refillTokens` (rate-limiter.ts:117-127): add
`intervalsPassed * refillRate` tokens capped at `maxTokens` and set
`lastRefill` to `now`.  Nothing happens when no whole interval elapsed. -/
def refillTokens (cfg : RateLimitConfig) (now : ℚ) (state : RateLimitState) :
    RateLimitState :=
  -- timePassed = now - state.lastRefill; intervalsPassed = floor(timePassed / refillInterval)
  if 0 < (⌊(now - state.lastRefill) / cfg.refillInterval⌋ : ℤ) then
    { tokens := min cfg.maxTokens
        (state.tokens + ((⌊(now - state.lastRefill) / cfg.refillInterval⌋ : ℤ) : ℚ) * cfg.refillRate),
      lastRefill := now }
  else state

/-- The `getOrCreateState` (rate-limiter.ts:100-112): a fresh bucket starts at
`maxTokens` with `lastRefill = Date.now()`. -/
def getOrCreateState (cfg : RateLimitConfig) (now : ℚ)
    (bucket : Option RateLimitState) : RateLimitState :=
  bucket.getD { tokens := cfg.maxTokens, lastRefill := now }

/-- The `consume` (rate-limiter.ts:49-72).  Returns the result together with the
bucket contents after the call (the JS code mutates the map entry in place,
so the refilled state persists even on the denied path). -/
def consume (cfg : RateLimitConfig) (now : ℚ) (bucket : Option RateLimitState)
    (tokens : ℚ) : RateLimitResult × RateLimitState :=
  -- state = refill(getOrCreateState(key)); tokensNeeded = tokens - state.tokens
  if tokens ≤ (refillTokens cfg now (getOrCreateState cfg now bucket)).tokens then
    ({ allowed := true,
       tokensRemaining := ⌊(refillTokens cfg now (getOrCreateState cfg now bucket)).tokens - tokens⌋,
       retryAfter := none },
      { refillTokens cfg now (getOrCreateState cfg now bucket) with
        tokens := (refillTokens cfg now (getOrCreateState cfg now bucket)).tokens - tokens })
  else
    ({ allowed := false,
       tokensRemaining := ⌊(refillTokens cfg now (getOrCreateState cfg now bucket)).tokens⌋,
       retryAfter := some (retryAfterCalc cfg
         (tokens - (refillTokens cfg now (getOrCreateState cfg now bucket)).tokens)) },
      refillTokens cfg now (getOrCreateState cfg now bucket))

/-- The `getTokens` (rate-limiter.ts:77-81): refill without consuming; returns the
floored count and the persisted bucket. -/
def getTokens (cfg : RateLimitConfig) (now : ℚ) (bucket : Option RateLimitState) :
    ℤ × RateLimitState :=
  (⌊(refillTokens cfg now (getOrCreateState cfg now bucket)).tokens⌋,
    refillTokens cfg now (getOrCreateState cfg now bucket))

/-- One limiter call as seen by a single key; used to state the C9 invariant
over arbitrary operation sequences.  `reset` (rate-limiter.ts:86-88) deletes
the map entry. -/
inductive LimiterOp where
  | consumeOp (now n : ℚ)
  | getTokensOp (now : ℚ)
  | resetOp
deriving DecidableEq

/-- Effect of one operation on the bucket of a fixed key. -/
def applyOp (cfg : RateLimitConfig) (bucket : Option RateLimitState) :
    LimiterOp → Option RateLimitState
  | .consumeOp now n => some (consume cfg now bucket n).2
  | .getTokensOp now => some (getTokens cfg now bucket).2
  | .resetOp => none

/-- A sequence of limiter calls on one key. -/
def runOps (cfg : RateLimitConfig) (bucket : Option RateLimitState)
    (ops : List LimiterOp) : Option RateLimitState :=
  ops.foldl (applyOp cfg) bucket

/-- The token count an observer would attribute to the key: a missing map
entry is materialised at `maxTokens` on the next access. -/
def obsTokens (cfg : RateLimitConfig) : Option RateLimitState → ℚ
  | none => cfg.maxTokens
  | some s => s.tokens

/-- The `0 ≤ tokens ≤ maxTokens` for the bucket, when present. -/
def BucketInv (cfg : RateLimitConfig) (bucket : Option RateLimitState) : Prop :=
  ∀ s, bucket = some s → 0 ≤ s.tokens ∧ s.tokens ≤ cfg.maxTokens

/-- An operation list that performs no `consume`. -/
def NoConsume (ops : List LimiterOp) : Prop :=
  ∀ now n, LimiterOp.consumeOp now n ∉ ops

/-! ## Retrying executor (`RateLimitedExecutor`, rate-limiter.ts:206-278) -/

/-- The `RetryConfig` from rate-limiter.ts. -/
structure RetryConfig where
  maxRetries : ℕ
  baseDelay : ℚ
  maxDelay : ℚ
deriving DecidableEq

/-- Outcome of one invocation of the wrapped `fn()`: it either resolves with a
value or rejects with an error message. -/
inductive FnOutcome (α : Type) where
  | ok (v : α)
  | err (msg : List Char)
deriving DecidableEq

/-- The `hay.includes(needle)` from JS: `needle` occurs contiguously in `hay`
(also true for the empty needle). -/
def includesStr (needle : List Char) : List Char → Bool
  | [] => needle.isEmpty
  | c :: rest => needle.isPrefixOf (c :: rest) || includesStr needle rest

/-- The `error.message?.includes('429') || error.message?.includes('rate limit')`
(rate-limiter.ts:233). -/
def isThrottleMsg (msg : List Char) : Bool :=
  includesStr "429".toList msg || includesStr "rate limit".toList msg

/-- The errors `execute` can reject with, structured instead of interpolated:
`fnError` rethrows the error from `fn()` (line 245), `rateLimitExceeded` is
the throw at line 251 carrying the attempt count and the last `retryAfter`,
`retriesExhausted` is the post-loop throw at line 264. -/
inductive ExecError where
  | fnError (msg : List Char)
  | rateLimitExceeded (attempts : ℕ) (retryAfter : Option (WithTop ℚ))
  | retriesExhausted (maxRetries : ℕ)
deriving DecidableEq

/-- Instrumented result of `execute`: the resolution plus how many times `fn`
was invoked, how many limiter consults happened, how many of those were
allowed (each allowed consult subtracts `n` tokens), and the final bucket. -/
structure ExecTrace (α : Type) where
  result : Except ExecError α
  fnCalls : ℕ
  consumeCalls : ℕ
  allowedCalls : ℕ
  bucket : Option RateLimitState

/-- The `while (attempt <= maxRetries)` loop of `execute`
(rate-limiter.ts:225-262).  `fuel` bounds the number of iterations; `execute`
supplies `maxRetries + 1`, which is exact since every iteration that does not
return increments `attempt`.  `times k` is the value of `Date.now()` during
the `k`-th limiter consult (backoff sleeps merely advance to the next
timestamp); `fns k` is the outcome of the `k`-th invocation of `fn`. -/
def executeAux {α : Type} (cfg : RateLimitConfig) (rc : RetryConfig)
    (times : ℕ → ℚ) (fns : ℕ → FnOutcome α) (n : ℚ) :
    ℕ → ℕ → ℕ → ℕ → ℕ → Option RateLimitState → ExecTrace α
  | 0, _, fnC, conC, alC, bucket =>
      ⟨.error (.retriesExhausted rc.maxRetries), fnC, conC, alC, bucket⟩
  | fuel + 1, attempt, fnC, conC, alC, bucket =>
      if rc.maxRetries < attempt then
        -- loop guard `attempt <= maxRetries` failed: throw at line 264
        ⟨.error (.retriesExhausted rc.maxRetries), fnC, conC, alC, bucket⟩
      else if (consume cfg (times conC) bucket n).1.allowed then
        match fns fnC with
        | .ok v =>
            ⟨.ok v, fnC + 1, conC + 1, alC + 1,
              some (consume cfg (times conC) bucket n).2⟩
        | .err msg =>
            if isThrottleMsg msg then
              -- attempt++; if still within budget, backoff and continue
              if attempt + 1 ≤ rc.maxRetries then
                executeAux cfg rc times fns n fuel (attempt + 1) (fnC + 1)
                  (conC + 1) (alC + 1) (some (consume cfg (times conC) bucket n).2)
              else
                ⟨.error (.fnError msg), fnC + 1, conC + 1, alC + 1,
                  some (consume cfg (times conC) bucket n).2⟩
            else
              ⟨.error (.fnError msg), fnC + 1, conC + 1, alC + 1,
                some (consume cfg (times conC) bucket n).2⟩
      else if rc.maxRetries ≤ attempt then
        ⟨.error (.rateLimitExceeded attempt (consume cfg (times conC) bucket n).1.retryAfter),
          fnC, conC + 1, alC, some (consume cfg (times conC) bucket n).2⟩
      else
        executeAux cfg rc times fns n fuel (attempt + 1) fnC (conC + 1) alC
          (some (consume cfg (times conC) bucket n).2)

/-- The `execute` (rate-limiter.ts:218-265) with `attempt = 0` and fresh counters. -/
def execute {α : Type} (cfg : RateLimitConfig) (rc : RetryConfig)
    (times : ℕ → ℚ) (fns : ℕ → FnOutcome α) (n : ℚ)
    (bucket : Option RateLimitState) : ExecTrace α :=
  executeAux cfg rc times fns n (rc.maxRetries + 1) 0 0 0 0 bucket

/-! ## Session and task state machine (`src/lib/session.ts`) -/

/-- Task statuses from session.ts. -/
inductive TaskStatus where
  | pending
  | running
  | completed
  | failed
  | skipped
deriving DecidableEq

/-- Session statuses from session.ts. -/
inductive SessionStatus where
  | idle
  | planning
  | plan_ready
  | shipping
  | paused
  | completed
  | error
deriving DecidableEq

/-- The `SessionTask` (session.ts:16-26).  The free-text `description` and
`acceptanceCriteria` fields are never read by the state machine or the
engine loop and are omitted. -/
structure SessionTask where
  id : List Char
  title : List Char
  priority : ℤ
  dependencies : List (List Char)
  status : TaskStatus
  completedAt : Option (List Char)
  error : Option (List Char)
deriving DecidableEq

/-- The `execution` sub-record of `SessionState` (session.ts:39-45). -/
structure SessionExecution where
  startedAt : Option (List Char)
  completedAt : Option (List Char)
  commits : List (List Char)
  prUrl : Option (List Char)
  jobId : Option (List Char)
deriving DecidableEq

/-- The `SessionState` (session.ts:28-48) restricted to the fields the
orchestration logic reads or writes; `version`, ids, `conversation` and the
`createdAt`/`updatedAt` timestamps are bookkeeping never consulted again. -/
structure SessionState where
  status : SessionStatus
  tasks : List SessionTask
  currentTaskId : Option (List Char)
  execution : SessionExecution
deriving DecidableEq

/-- The `updateSessionStatus` (session.ts:214-220); the `updatedAt` stamp is
omitted (see above). -/
def updateSessionStatus (session : SessionState) (status : SessionStatus) :
    SessionState :=
  { session with status := status }

/-- The `tasks.find(t => t.id === taskId)` followed by in-place mutation:
replace the first task carrying the id. -/
def updateFirstTask : List SessionTask → List Char → (SessionTask → SessionTask) →
    List SessionTask
  | [], _, _ => []
  | t :: ts, taskId, f =>
      if t.id = taskId then f t :: ts else t :: updateFirstTask ts taskId f

/-- The `updateTaskStatus` (session.ts:225-242): set the status of the first task
with the id, stamping `completedAt` (with the ambient time `ts`) on
`completed`/`failed` and recording an error message when one is given. -/
def updateTaskStatus (session : SessionState) (taskId : List Char)
    (status : TaskStatus) (ts : List Char) (err : Option (List Char)) :
    SessionState :=
  { session with tasks := updateFirstTask session.tasks taskId (fun t =>
      { t with
        status := status,
        completedAt :=
          if status = TaskStatus.completed ∨ status = TaskStatus.failed then some ts
          else t.completedAt,
        error := match err with
          | some e => some e
          | none => t.error }) }

/-- Dependency check inside `getNextTask` (session.ts:252-255): every entry of
`dependencies` resolves to a task whose status is `completed`; a dangling id
(`dep?.status` on `undefined`) counts as not completed. -/
def depsCompleted (session : SessionState) (t : SessionTask) : Bool :=
  t.dependencies.all (fun depId =>
    match session.tasks.find? (fun u => u.id == depId) with
    | some dep => dep.status == TaskStatus.completed
    | none => false)

/-- The `getNextTask` (session.ts:247-263): first pending task (in plan order)
whose dependencies are all completed, else `null`. -/
def getNextTask (session : SessionState) : Option SessionTask :=
  (session.tasks.filter (fun t => t.status == TaskStatus.pending)).find?
    (fun t => depsCompleted session t)

/-- The record returned by `getProgress` (session.ts:268-290). -/
structure SessionProgress where
  total : ℕ
  completed : ℕ
  failed : ℕ
  pending : ℕ
  running : ℕ
  percent : ℤ
deriving DecidableEq

/-- The `getProgress` (session.ts:268-290); `Math.round((completed/total)*100)`
is `round` on `ℚ` (both round half upwards). -/
def getProgress (session : SessionState) : SessionProgress :=
  { total := session.tasks.length,
    completed := (session.tasks.filter (fun t => t.status == TaskStatus.completed)).length,
    failed := (session.tasks.filter (fun t => t.status == TaskStatus.failed)).length,
    pending := (session.tasks.filter (fun t => t.status == TaskStatus.pending)).length,
    running := (session.tasks.filter (fun t => t.status == TaskStatus.running)).length,
    percent :=
      if 0 < session.tasks.length then
        round ((((session.tasks.filter
          (fun t => t.status == TaskStatus.completed)).length : ℚ) /
            (session.tasks.length : ℚ)) * 100)
      else 0 }

/-- The A/B/C scenario plan: `A` (no deps), `B` (deps `[A]`), `C` (deps `[A, B]`). -/
def taskA : SessionTask :=
  ⟨"A".toList, "A".toList, 1, [], TaskStatus.pending, none, none⟩

def taskB : SessionTask :=
  ⟨"B".toList, "B".toList, 2, ["A".toList], TaskStatus.pending, none, none⟩

def taskC : SessionTask :=
  ⟨"C".toList, "C".toList, 3, ["A".toList, "B".toList], TaskStatus.pending, none, none⟩

def sessionABC : SessionState :=
  ⟨SessionStatus.plan_ready, [taskA, taskB, taskC], none, ⟨none, none, [], none, none⟩⟩

def sessionABC1 : SessionState :=
  updateTaskStatus sessionABC "A".toList TaskStatus.completed [] none

def sessionABC2 : SessionState :=
  updateTaskStatus sessionABC1 "B".toList TaskStatus.completed [] none

def sessionABC3 : SessionState :=
  updateTaskStatus sessionABC2 "C".toList TaskStatus.completed [] none

/-! ## Plan file status store (`src/lib/plan-parser.ts`) -/

/-- The `PlanTask` (plan-parser.ts:21-29) restricted to the two fields the
single-session engine reads: `id` and `status` (title, priority, deps and
descriptions feed only the prompt text, which is opaque to the loop). -/
structure PlanTask where
  id : List Char
  status : TaskStatus
deriving DecidableEq

/-- The `updateTaskInPlan` (plan-parser.ts:343-362): load the plan, set the status
of the first task with the id, save.  A missing id leaves the plan unchanged. -/
def updateTaskInPlan : List PlanTask → List Char → TaskStatus → List PlanTask
  | [], _, _ => []
  | t :: ts, taskId, status =>
      if t.id = taskId then { t with status := status } :: ts
      else t :: updateTaskInPlan ts taskId status

/-! ## Single-session execution loop (`runShipEngineSingleExecution`,
`src/lib/ship-engine.ts:405-637`) -/

/-- The `AgentEvent.eventType` values (ship-engine.ts:56-61). -/
inductive AgentEventType where
  | tool_call
  | thinking
  | message
  | tool_result
deriving DecidableEq

/-- Fields of an `agent` stream event as the handler reads them:
`display = data.display || ''` and `output = data.output || data.content || ''`
are already defaulted to the empty string. -/
structure AgentData where
  eventType : AgentEventType
  tool : Option (List Char)
  display : List Char
  output : List Char
deriving DecidableEq

/-- Fields of the terminal `result` event (`data.result`). -/
structure ResultData where
  success : Bool
  prUrl : Option (List Char)
  commitSha : Option (List Char)
  error : Option (List Char)
deriving DecidableEq

/-- One message from the push-event stream.  `heartbeat` is the literal
`:heartbeat` sentinel and `malformed` a frame whose JSON parse throws; both
are skipped by the handler. -/
inductive StreamEvent where
  | heartbeat
  | malformed
  | statusEv (message : List Char) (phase : Option (List Char))
  | agentEv (d : AgentData)
  | resultEv (r : ResultData)
  | errorEv (msg : List Char)
deriving DecidableEq

/-- The `result` and `error` events close the stream and resolve the promise. -/
def StreamEvent.isTerminal : StreamEvent → Bool
  | resultEv _ => true
  | errorEv _ => true
  | _ => false

/-- Observable callback invocations, in order (ship-engine.ts:43-54). -/
inductive CbEvent where
  | onStatus (message : List Char) (phase : Option (List Char))
  | onAgent (d : AgentData)
  | onTaskComplete (t : PlanTask)
  | onProgress (completed total : ℕ)
  | onComplete (prUrl : Option (List Char))
  | onError (msg : List Char)
deriving DecidableEq

/-- Mutable state of the single-session loop: the `completedTaskIds` set
(insertion-ordered list, membership by `contains`), the `completedTasks`
counter, the plan.md contents, the persisted session (load/save collapse to
this field), and the emitted callbacks. -/
structure EngineState where
  completedTaskIds : List (List Char)
  completedTasks : ℕ
  planFile : List PlanTask
  session : SessionState
  callbacks : List CbEvent
deriving DecidableEq

/-- What the single-execution promise resolves with (`ShipResult`,
ship-engine.ts:63-69). -/
structure Resolution where
  success : Bool
  prUrl : Option (List Char)
  completedTasks : ℕ
  totalTasks : ℕ
  error : Option (List Char)
deriving DecidableEq

def appendCb (st : EngineState) (c : CbEvent) : EngineState :=
  { st with callbacks := st.callbacks ++ [c] }

/-- The `[A-Z]` of the completion-marker regex. -/
def isUpperCh (c : Char) : Bool := decide ('A' ≤ c) && decide (c ≤ 'Z')

/-- The `\d` of the completion-marker regex. -/
def isDigitCh (c : Char) : Bool := decide ('0' ≤ c) && decide (c ≤ '9')

/-- Match a literal at the head of the input, returning the rest. -/
def dropLit : List Char → List Char → Option (List Char)
  | [], s => some s
  | _ :: _, [] => none
  | c :: cs, d :: ds => if c = d then dropLit cs ds else none

/-- Try `<task-complete>([A-Z]+-\d+)</task-complete>` anchored at the start of
`s`, returning the capture group.  `[A-Z]+` and `\d+` are maximal munch,
which coincides with the backtracking regex here because an uppercase letter
is never `-` and a digit is never `<`. -/
def markerCapture (s : List Char) : Option (List Char) :=
  match dropLit "<task-complete>".toList s with
  | none => none
  | some r1 =>
      if (r1.takeWhile isUpperCh).isEmpty then none
      else
        match r1.drop (r1.takeWhile isUpperCh).length with
        | '-' :: r3 =>
            if (r3.takeWhile isDigitCh).isEmpty then none
            else
              match dropLit "</task-complete>".toList
                  (r3.drop (r3.takeWhile isDigitCh).length) with
              | some _ => some ((r1.takeWhile isUpperCh) ++ '-' :: (r3.takeWhile isDigitCh))
              | none => none
        | _ => none

/-- The `output.match(/<task-complete>([A-Z]+-\d+)<\/task-complete>/)`
(ship-engine.ts:518): the capture group of the leftmost match. -/
def matchTaskComplete : List Char → Option (List Char)
  | [] => none
  | c :: rest =>
      match markerCapture (c :: rest) with
      | some id => some id
      | none => matchTaskComplete rest

/-- The `markTaskComplete` (ship-engine.ts:545-562): idempotent per id; on a fresh
id it records the id, bumps the counter, marks the task completed in plan.md,
fires `onTaskComplete` when the id belongs to a pending task, and fires
`onProgress`. -/
def markTaskComplete (pendingTasks : List PlanTask) (totalTasks : ℕ)
    (taskId : List Char) (st : EngineState) : EngineState :=
  if st.completedTaskIds.contains taskId then st
  else
    { st with
      completedTaskIds := taskId :: st.completedTaskIds,
      completedTasks := st.completedTasks + 1,
      planFile := updateTaskInPlan st.planFile taskId TaskStatus.completed,
      callbacks := st.callbacks ++
        (match pendingTasks.find? (fun t => t.id == taskId) with
         | some t => [CbEvent.onTaskComplete t]
         | none => []) ++
        [CbEvent.onProgress (st.completedTasks + 1) totalTasks] }

/-- The `for (const task of pendingTasks)` scans of methods 2 and 3
(ship-engine.ts:526-532 and 538-542): mark every not-yet-completed pending
task whose id the event text mentions, left to right against the live
`completedTaskIds` set. -/
def scanTasks (pendingTasks : List PlanTask) (totalTasks : ℕ)
    (mention : List Char → Bool) : List PlanTask → EngineState → EngineState
  | [], st => st
  | t :: rest, st =>
      if !st.completedTaskIds.contains t.id && mention t.id then
        scanTasks pendingTasks totalTasks mention rest
          (markTaskComplete pendingTasks totalTasks t.id st)
      else scanTasks pendingTasks totalTasks mention rest st

/-- Method 1 (ship-engine.ts:517-521): explicit `<task-complete>` marker. -/
def method1 (pendingTasks : List PlanTask) (totalTasks : ℕ) (d : AgentData)
    (st : EngineState) : EngineState :=
  match matchTaskComplete d.output with
  | some id => markTaskComplete pendingTasks totalTasks id st
  | none => st

/-- Method 2 (ship-engine.ts:523-533): a `Bash` tool call whose display or
output contains `git commit`, scanning for pending task ids in either text. -/
def method2 (pendingTasks : List PlanTask) (totalTasks : ℕ) (d : AgentData)
    (st : EngineState) : EngineState :=
  if d.tool == some "Bash".toList &&
      (includesStr "git commit".toList d.display ||
       includesStr "git commit".toList d.output) then
    scanTasks pendingTasks totalTasks
      (fun taskId => includesStr taskId d.display || includesStr taskId d.output)
      pendingTasks st
  else st

/-- Method 3 (ship-engine.ts:536-543): a `TodoWrite` tool call whose output
contains `completed`, scanning for pending task ids in the output. -/
def method3 (pendingTasks : List PlanTask) (totalTasks : ℕ) (d : AgentData)
    (st : EngineState) : EngineState :=
  if d.tool == some "TodoWrite".toList && includesStr "completed".toList d.output then
    scanTasks pendingTasks totalTasks (fun taskId => includesStr taskId d.output)
      pendingTasks st
  else st

/-- Handler for an `agent` event (ship-engine.ts:508-570): the three
completion heuristics in order, then `onAgent`. -/
def processAgentEvent (pendingTasks : List PlanTask) (totalTasks : ℕ)
    (d : AgentData) (st : EngineState) : EngineState :=
  appendCb
    (method3 pendingTasks totalTasks d
      (method2 pendingTasks totalTasks d
        (method1 pendingTasks totalTasks d st)))
    (CbEvent.onAgent d)

/-- Session mutation on the terminal `result` event (ship-engine.ts:577-588):
record `prUrl`/`commitSha`, stamp `completedAt` with the ambient time `ts`,
and set the session status to `completed` on success, `error` otherwise. -/
def updateSessionOnResult (ts : List Char) (r : ResultData) (s : SessionState) :
    SessionState :=
  updateSessionStatus
    { s with execution :=
        { s.execution with
          prUrl := match r.prUrl with
            | some u => some u
            | none => s.execution.prUrl,
          commits := match r.commitSha with
            | some c => s.execution.commits ++ [c]
            | none => s.execution.commits,
          completedAt := some ts } }
    (if r.success then SessionStatus.completed else SessionStatus.error)

/-- The success sweep (ship-engine.ts:591-598): every pending task whose id
was not collected by a heuristic is marked completed in plan.md and counted;
`completedTaskIds` itself is not extended and no callback fires. -/
def sweepPending : List PlanTask → EngineState → EngineState
  | [], st => st
  | t :: rest, st =>
      if !st.completedTaskIds.contains t.id then
        sweepPending rest
          { st with
            planFile := updateTaskInPlan st.planFile t.id TaskStatus.completed,
            completedTasks := st.completedTasks + 1 }
      else sweepPending rest st

/-- State after the `result` event: session update, then the sweep on
success, then `onComplete`.  (`updateBackgroundJob` touches only the external
job ledger and is not modelled.) -/
def resultState (pendingTasks : List PlanTask) (ts : List Char) (r : ResultData)
    (st : EngineState) : EngineState :=
  appendCb
    (if r.success then
      sweepPending pendingTasks { st with session := updateSessionOnResult ts r st.session }
     else { st with session := updateSessionOnResult ts r st.session })
    (CbEvent.onComplete r.prUrl)

/-- The `result` handler (ship-engine.ts:572-608): resolves with
`success/prUrl/completedTasks/totalTasks/error`, the counter read after the
sweep. -/
def processResult (pendingTasks : List PlanTask) (totalTasks : ℕ) (ts : List Char)
    (r : ResultData) (st : EngineState) : Resolution × EngineState :=
  ({ success := r.success, prUrl := r.prUrl,
     completedTasks := (resultState pendingTasks ts r st).completedTasks,
     totalTasks := totalTasks, error := r.error },
   resultState pendingTasks ts r st)

/-- The `error` handler (ship-engine.ts:610-620). -/
def processError (totalTasks : ℕ) (msg : List Char) (st : EngineState) :
    Resolution × EngineState :=
  ({ success := false, prUrl := none, completedTasks := st.completedTasks,
     totalTasks := totalTasks, error := some msg },
   appendCb st (CbEvent.onError msg))

/-- The `es.onmessage` loop (ship-engine.ts:496-624): events processed in
arrival order until the first terminal event resolves the promise (`none`
means the stream ended with the promise still pending). -/
def runStream (pendingTasks : List PlanTask) (totalTasks : ℕ) (ts : List Char) :
    List StreamEvent → EngineState → Option Resolution × EngineState
  | [], st => (none, st)
  | ev :: evs, st =>
      match ev with
      | .heartbeat => runStream pendingTasks totalTasks ts evs st
      | .malformed => runStream pendingTasks totalTasks ts evs st
      | .statusEv m p =>
          runStream pendingTasks totalTasks ts evs (appendCb st (CbEvent.onStatus m p))
      | .agentEv d =>
          runStream pendingTasks totalTasks ts evs
            (processAgentEvent pendingTasks totalTasks d st)
      | .resultEv r =>
          (some (processResult pendingTasks totalTasks ts r st).1,
            (processResult pendingTasks totalTasks ts r st).2)
      | .errorEv m =>
          (some (processError totalTasks m st).1, (processError totalTasks m st).2)

/-- The status message announcing the batch (ship-engine.ts:430). -/
def execStatusMsg (pendingCount : ℕ) : List Char :=
  "Executing ".toList ++ (toString pendingCount).toList ++
    " tasks in single session...".toList

/-- The `runShipEngineSingleExecution` (ship-engine.ts:405-637) from the point
where session and plan are loaded: early-return when nothing is pending,
otherwise mark the session `shipping` (stamping `startedAt` and the job id,
the remote call itself being external and assumed accepted) and consume the
stream.  `ts` is the ambient wall-clock string, `evs` the received stream. -/
def runShipEngineSingleExecution (s0 : SessionState) (p0 : List PlanTask)
    (jobId ts : List Char) (evs : List StreamEvent) :
    Option Resolution × EngineState :=
  if (p0.filter (fun t => t.status == TaskStatus.pending)).isEmpty then
    (some { success := true, prUrl := s0.execution.prUrl,
            completedTasks := p0.length, totalTasks := p0.length, error := none },
     ⟨[], (p0.filter (fun t => t.status == TaskStatus.completed)).length, p0, s0,
       [CbEvent.onComplete s0.execution.prUrl]⟩)
  else
    runStream (p0.filter (fun t => t.status == TaskStatus.pending)) p0.length ts evs
      ⟨[], (p0.filter (fun t => t.status == TaskStatus.completed)).length, p0,
        { updateSessionStatus s0 SessionStatus.shipping with
            execution := { s0.execution with startedAt := some ts, jobId := some jobId } },
        [CbEvent.onStatus
            (execStatusMsg (p0.filter (fun t => t.status == TaskStatus.pending)).length)
            (some "agent".toList),
          CbEvent.onProgress 0 p0.length]⟩

/-- Count of `onTaskComplete` callbacks carrying a given task id. -/
def countTC (id : List Char) (cbs : List CbEvent) : ℕ :=
  (cbs.filter (fun cb => match cb with
    | CbEvent.onTaskComplete u => u.id == id
    | _ => false)).length

/-- A one-task session still pending, paired with `demoPlanC1`: the input on
which single-session mode marks the session completed with a pending task. -/
def demoSessionC1 : SessionState :=
  ⟨SessionStatus.plan_ready,
    [⟨"US-001".toList, "T".toList, 1, [], TaskStatus.pending, none, none⟩],
    none, ⟨none, none, [], none, none⟩⟩

def demoPlanC1 : List PlanTask := [⟨"US-001".toList, TaskStatus.pending⟩]

/-- A session whose single task is completed (C1 witness input). -/
def demoTaskDone : SessionTask :=
  ⟨"A".toList, "A".toList, 1, [], TaskStatus.completed, none, none⟩

def demoSessionDone : SessionState :=
  ⟨SessionStatus.completed, [demoTaskDone], none, ⟨none, none, [], none, none⟩⟩

/-! ### Plan lookup lemmas -/

/-- The plan file contains a task with the id. -/
def PlanHasId (plan : List PlanTask) (id : List Char) : Prop :=
  (plan.find? (fun u => u.id == id)).isSome

/-- Status of the first plan task with the id. -/
def planStatusOf (plan : List PlanTask) (id : List Char) : Option TaskStatus :=
  (plan.find? (fun u => u.id == id)).map PlanTask.status

/-! ### Heuristic-marking invariant -/

/-- Invariant maintained by the single-session loop: every pending task id is
present in the plan file, and every id collected in `completedTaskIds` is
already marked completed in the plan file. -/
def MarkedInv (pending : List PlanTask) (st : EngineState) : Prop :=
  (∀ t ∈ pending, PlanHasId st.planFile t.id) ∧
  (∀ t ∈ pending, st.completedTaskIds.contains t.id = true →
    planStatusOf st.planFile t.id = some TaskStatus.completed)

/-- C6 witness inputs: one pending task, a commit event naming it, delivered
twice. -/
def demoTaskC6 : PlanTask := ⟨"US-001".toList, TaskStatus.pending⟩

def demoAgentC6 : AgentData :=
  ⟨AgentEventType.tool_call, some "Bash".toList, "git commit -m US-001".toList, []⟩

def demoStC6 : EngineState := ⟨[], 0, demoPlanC1, demoSessionC1, []⟩

/-- C10 inputs: a message event whose output carries a lowercase-id marker,
and a loop state whose only pending task is that lowercase id. -/
def demoAgentC10 : AgentData :=
  ⟨AgentEventType.message, none, [],
    "<task-complete>task-1</task-complete>".toList⟩

def demoPlanC10 : List PlanTask := [⟨"task-1".toList, TaskStatus.pending⟩]

def demoStC10 : EngineState := ⟨[], 0, demoPlanC10, demoSessionC1, []⟩

/-! ## Theorems -/

/-! ### Basic refill lemmas -/

theorem refillTokens_le_max (cfg : RateLimitConfig) (now : ℚ) (s : RateLimitState)
    (h : s.tokens ≤ cfg.maxTokens) :
    (refillTokens cfg now s).tokens ≤ cfg.maxTokens := by
  unfold refillTokens
  split
  · exact min_le_left _ _
  · exact h

theorem refillTokens_mono (cfg : RateLimitConfig) (now : ℚ) (s : RateLimitState)
    (hrate : 0 ≤ cfg.refillRate) (h : s.tokens ≤ cfg.maxTokens) :
    s.tokens ≤ (refillTokens cfg now s).tokens := by
  unfold refillTokens
  split
  · next hpos =>
      refine le_min h ?_
      have : (0 : ℚ) ≤ (⌊(now - s.lastRefill) / cfg.refillInterval⌋ : ℚ) * cfg.refillRate :=
        mul_nonneg (by exact_mod_cast hpos.le) hrate
      linarith
  · exact le_refl _

theorem refillTokens_nonneg (cfg : RateLimitConfig) (now : ℚ) (s : RateLimitState)
    (hmax : 0 ≤ cfg.maxTokens) (hrate : 0 ≤ cfg.refillRate) (h : 0 ≤ s.tokens) :
    0 ≤ (refillTokens cfg now s).tokens := by
  unfold refillTokens
  split
  · next hpos =>
      refine le_min hmax ?_
      have : (0 : ℚ) ≤ (⌊(now - s.lastRefill) / cfg.refillInterval⌋ : ℚ) * cfg.refillRate :=
        mul_nonneg (by exact_mod_cast hpos.le) hrate
      linarith
  · exact h

/-! ### C2: the refill step -/

/-- C2 counterexample.  With `maxTokens = 10`, `refillRate = 1`,
`refillInterval = 100`, a bucket `{tokens := 0, lastRefill := 0}` and
`now = 150` (one and a half intervals elapsed), the refill adds one token but
sets `lastRefill` to `150`, not to `lastRefill + wholeIntervals * refillInterval
= 100` as the claim states: the half-interval of fractional progress is lost. -/
theorem consume_refill_lastRefill_counterexample :
    refillTokens ⟨10, 1, 100⟩ 150 ⟨0, 0⟩ = { tokens := 1, lastRefill := 150 } ∧
    (refillTokens ⟨10, 1, 100⟩ 150 ⟨0, 0⟩).lastRefill ≠
      (0 : ℚ) + ((⌊(((150 : ℚ) - 0) / 100)⌋ : ℤ) : ℚ) * 100 := by
  unfold refillTokens
  norm_num

/-- C2 (amended): when at least one whole `refillInterval` has elapsed, the
refill performed by `getTokens` (and by `consume`) adds
`wholeIntervals * refillRate` tokens capped at `maxTokens` and sets
`lastRefill` to the current time `now` (losing fractional interval progress),
and `consume` likewise leaves `lastRefill = now` on both of its branches. -/
theorem consume_getTokens_refill_step (cfg : RateLimitConfig) (now n : ℚ)
    (s : RateLimitState)
    (h : 0 < ⌊(now - s.lastRefill) / cfg.refillInterval⌋) :
    (getTokens cfg now (some s)).2 =
      { tokens := min cfg.maxTokens
          (s.tokens + ((⌊(now - s.lastRefill) / cfg.refillInterval⌋ : ℤ) : ℚ) * cfg.refillRate),
        lastRefill := now } ∧
    (consume cfg now (some s) n).2.lastRefill = now := by
  have hrefill : refillTokens cfg now s =
      { tokens := min cfg.maxTokens
          (s.tokens + ((⌊(now - s.lastRefill) / cfg.refillInterval⌋ : ℤ) : ℚ) * cfg.refillRate),
        lastRefill := now } := by
    unfold refillTokens
    rw [if_pos h]
  constructor
  · unfold getTokens getOrCreateState
    simpa using hrefill
  · unfold consume getOrCreateState
    simp only [Option.getD_some, hrefill]
    split <;> rfl

/-- C2 witness: the amended refill step evaluated at the counterexample
input (`now = 150`, interval `100`, one whole interval elapsed). -/
theorem consume_getTokens_refill_step_witness :
    0 < ⌊(((150 : ℚ) - (0 : ℚ)) / (100 : ℚ))⌋ ∧
    ((getTokens ⟨10, 1, 100⟩ 150 (some ⟨0, 0⟩)).2 =
      { tokens := min (10 : ℚ)
          ((0 : ℚ) + ((⌊(((150 : ℚ) - 0) / 100)⌋ : ℤ) : ℚ) * 1),
        lastRefill := 150 } ∧
    (consume ⟨10, 1, 100⟩ 150 (some ⟨0, 0⟩) 1).2.lastRefill = 150) := by
  have h : 0 < ⌊(((150 : ℚ) - (0 : ℚ)) / (100 : ℚ))⌋ := by norm_num
  exact ⟨h, consume_getTokens_refill_step ⟨10, 1, 100⟩ 150 1 ⟨0, 0⟩ h⟩

/-! ### C3: denied consume -/

/-- C3: when `n` exceeds the tokens available after the refill (and the
configuration has a positive refill rate and interval), `consume` returns
`allowed = false` with a strictly positive `retryAfter` equal to
`⌈(n - tokens) / refillRate⌉ * refillInterval`, and the stored bucket is
exactly the refilled state: no tokens are subtracted. -/
theorem consume_denied_no_mutation (cfg : RateLimitConfig) (now n : ℚ)
    (bucket : Option RateLimitState)
    (hrate : 0 < cfg.refillRate) (hint : 0 < cfg.refillInterval)
    (hlt : (refillTokens cfg now (getOrCreateState cfg now bucket)).tokens < n) :
    (consume cfg now bucket n).1.allowed = false ∧
    (consume cfg now bucket n).2 = refillTokens cfg now (getOrCreateState cfg now bucket) ∧
    ∃ q : ℚ, (consume cfg now bucket n).1.retryAfter = some (q : WithTop ℚ) ∧ 0 < q ∧
      q = ((⌈(n - (refillTokens cfg now (getOrCreateState cfg now bucket)).tokens) /
            cfg.refillRate⌉ : ℤ) : ℚ) * cfg.refillInterval := by
  unfold consume
  rw [if_neg (not_le.mpr hlt)]
  refine ⟨rfl, rfl, ?_⟩
  unfold retryAfterCalc
  rw [if_neg hrate.ne']
  refine ⟨_, rfl, ?_, rfl⟩
  have hpos : 0 < (n - (refillTokens cfg now (getOrCreateState cfg now bucket)).tokens) /
      cfg.refillRate := div_pos (by linarith) hrate
  exact mul_pos (by exact_mod_cast Int.ceil_pos.mpr hpos) hint

/-- C3 witness: config `⟨10, 5, 1000⟩`, bucket holding 2 tokens, request of 5. -/
theorem consume_denied_no_mutation_witness :
    (0 : ℚ) < 5 ∧ (0 : ℚ) < 1000 ∧
    (refillTokens ⟨10, 5, 1000⟩ 0 (getOrCreateState ⟨10, 5, 1000⟩ 0 (some ⟨2, 0⟩))).tokens < 5 ∧
    ((consume ⟨10, 5, 1000⟩ 0 (some ⟨2, 0⟩) 5).1.allowed = false ∧
     (consume ⟨10, 5, 1000⟩ 0 (some ⟨2, 0⟩) 5).2 =
       refillTokens ⟨10, 5, 1000⟩ 0 (getOrCreateState ⟨10, 5, 1000⟩ 0 (some ⟨2, 0⟩)) ∧
     ∃ q : ℚ, (consume ⟨10, 5, 1000⟩ 0 (some ⟨2, 0⟩) 5).1.retryAfter = some (q : WithTop ℚ) ∧
       0 < q ∧
       q = ((⌈(5 - (refillTokens ⟨10, 5, 1000⟩ 0
              (getOrCreateState ⟨10, 5, 1000⟩ 0 (some ⟨2, 0⟩))).tokens) / 5⌉ : ℤ) : ℚ) * 1000) := by
  have h3 : (refillTokens ⟨10, 5, 1000⟩ 0
      (getOrCreateState ⟨10, 5, 1000⟩ 0 (some ⟨2, 0⟩))).tokens < 5 := by
    unfold refillTokens getOrCreateState
    norm_num
  exact ⟨by norm_num, by norm_num, h3,
    consume_denied_no_mutation ⟨10, 5, 1000⟩ 0 5 (some ⟨2, 0⟩) (by norm_num) (by norm_num) h3⟩

/-! ### C9: bucket invariant and monotonicity between consumes -/

theorem getOrCreateState_inv (cfg : RateLimitConfig) (now : ℚ)
    (b : Option RateLimitState) (hmax : 0 ≤ cfg.maxTokens) (hb : BucketInv cfg b) :
    0 ≤ (getOrCreateState cfg now b).tokens ∧
    (getOrCreateState cfg now b).tokens ≤ cfg.maxTokens := by
  cases b with
  | none => exact ⟨hmax, le_refl _⟩
  | some s => exact hb s rfl

theorem consume_state_inv (cfg : RateLimitConfig) (now n : ℚ)
    (b : Option RateLimitState) (hmax : 0 ≤ cfg.maxTokens)
    (hrate : 0 ≤ cfg.refillRate) (hn : 0 ≤ n) (hb : BucketInv cfg b) :
    0 ≤ (consume cfg now b n).2.tokens ∧
    (consume cfg now b n).2.tokens ≤ cfg.maxTokens := by
  obtain ⟨h0, h1⟩ := getOrCreateState_inv cfg now b hmax hb
  have r0 := refillTokens_nonneg cfg now _ hmax hrate h0
  have r1 := refillTokens_le_max cfg now _ h1
  unfold consume
  split
  · next hall =>
      dsimp only
      exact ⟨by linarith, by linarith⟩
  · exact ⟨r0, r1⟩

theorem getTokens_state_inv (cfg : RateLimitConfig) (now : ℚ)
    (b : Option RateLimitState) (hmax : 0 ≤ cfg.maxTokens)
    (hrate : 0 ≤ cfg.refillRate) (hb : BucketInv cfg b) :
    0 ≤ (getTokens cfg now b).2.tokens ∧
    (getTokens cfg now b).2.tokens ≤ cfg.maxTokens := by
  obtain ⟨h0, h1⟩ := getOrCreateState_inv cfg now b hmax hb
  exact ⟨refillTokens_nonneg cfg now _ hmax hrate h0, refillTokens_le_max cfg now _ h1⟩

theorem applyOp_inv (cfg : RateLimitConfig) (b : Option RateLimitState)
    (op : LimiterOp) (hmax : 0 ≤ cfg.maxTokens) (hrate : 0 ≤ cfg.refillRate)
    (hop : ∀ now n, op = .consumeOp now n → 0 ≤ n) (hb : BucketInv cfg b) :
    BucketInv cfg (applyOp cfg b op) := by
  cases op with
  | consumeOp now n =>
      intro s hs
      have := consume_state_inv cfg now n b hmax hrate (hop now n rfl) hb
      simp only [applyOp, Option.some.injEq] at hs
      rw [← hs]
      exact this
  | getTokensOp now =>
      intro s hs
      have := getTokens_state_inv cfg now b hmax hrate hb
      simp only [applyOp, Option.some.injEq] at hs
      rw [← hs]
      exact this
  | resetOp => exact fun s hs => Option.noConfusion hs

theorem applyOp_non_consume_mono (cfg : RateLimitConfig) (b : Option RateLimitState)
    (op : LimiterOp) (hrate : 0 ≤ cfg.refillRate) (hb : BucketInv cfg b)
    (hop : ∀ now n, op ≠ .consumeOp now n) :
    obsTokens cfg b ≤ obsTokens cfg (applyOp cfg b op) := by
  cases op with
  | consumeOp now n => exact absurd rfl (hop now n)
  | getTokensOp now =>
      cases b with
      | none =>
          simp only [applyOp, getTokens, obsTokens, getOrCreateState, Option.getD_none]
          exact refillTokens_mono cfg now _ hrate (le_refl _)
      | some s =>
          simp only [applyOp, getTokens, obsTokens, getOrCreateState, Option.getD_some]
          exact refillTokens_mono cfg now s hrate (hb s rfl).2
  | resetOp =>
      cases b with
      | none => exact le_refl _
      | some s => exact (hb s rfl).2

/-- C9: for every sequence of `consume`, `getTokens` and `reset` operations on
a key (with a well-formed configuration and non-negative consumption amounts),
the bucket always satisfies `0 ≤ tokens ≤ maxTokens`, and when the sequence
contains no `consume` at all the token count is monotonically non-decreasing:
refills only add tokens, capped at `maxTokens`. -/
theorem limiter_invariant_and_monotone (cfg : RateLimitConfig)
    (bucket : Option RateLimitState) (ops : List LimiterOp)
    (hmax : 0 ≤ cfg.maxTokens) (hrate : 0 ≤ cfg.refillRate)
    (hn : ∀ now n, LimiterOp.consumeOp now n ∈ ops → 0 ≤ n)
    (hb : BucketInv cfg bucket) :
    BucketInv cfg (runOps cfg bucket ops) ∧
    (NoConsume ops → obsTokens cfg bucket ≤ obsTokens cfg (runOps cfg bucket ops)) := by
  induction ops generalizing bucket with
  | nil => exact ⟨hb, fun _ => le_refl _⟩
  | cons op ops ih =>
      have hstep : BucketInv cfg (applyOp cfg bucket op) :=
        applyOp_inv cfg bucket op hmax hrate
          (fun now n he => hn now n (he ▸ List.mem_cons_self op ops)) hb
      have hn' : ∀ now n, LimiterOp.consumeOp now n ∈ ops → 0 ≤ n :=
        fun now n h => hn now n (List.mem_cons_of_mem op h)
      obtain ⟨ih1, ih2⟩ := ih (applyOp cfg bucket op) hn' hstep
      refine ⟨ih1, fun hnc => ?_⟩
      have hop : ∀ now n, op ≠ .consumeOp now n :=
        fun now n he => hnc now n (he ▸ List.mem_cons_self op ops)
      calc obsTokens cfg bucket
          ≤ obsTokens cfg (applyOp cfg bucket op) :=
            applyOp_non_consume_mono cfg bucket op hrate hb hop
        _ ≤ obsTokens cfg (runOps cfg (applyOp cfg bucket op) ops) :=
            ih2 (fun now n h => hnc now n (List.mem_cons_of_mem op h))

/-- C9 witness: config `⟨10, 5, 1000⟩`, fresh bucket, a consume of one token
followed by a `getTokens` and a `reset`. -/
theorem limiter_invariant_and_monotone_witness :
    (0 : ℚ) ≤ 10 ∧ (0 : ℚ) ≤ 5 ∧
    (∀ now n, LimiterOp.consumeOp now n ∈
      [LimiterOp.consumeOp 0 1, LimiterOp.getTokensOp 1000, LimiterOp.resetOp] → 0 ≤ n) ∧
    BucketInv ⟨10, 5, 1000⟩ none ∧
    (BucketInv ⟨10, 5, 1000⟩ (runOps ⟨10, 5, 1000⟩ none
        [LimiterOp.consumeOp 0 1, LimiterOp.getTokensOp 1000, LimiterOp.resetOp]) ∧
     (NoConsume [LimiterOp.consumeOp 0 1, LimiterOp.getTokensOp 1000, LimiterOp.resetOp] →
       obsTokens ⟨10, 5, 1000⟩ none ≤ obsTokens ⟨10, 5, 1000⟩ (runOps ⟨10, 5, 1000⟩ none
         [LimiterOp.consumeOp 0 1, LimiterOp.getTokensOp 1000, LimiterOp.resetOp]))) := by
  have hn : ∀ now n, LimiterOp.consumeOp now n ∈
      [LimiterOp.consumeOp 0 1, LimiterOp.getTokensOp 1000, LimiterOp.resetOp] → 0 ≤ n := by
    intro now n h
    simp only [List.mem_cons, List.mem_singleton, List.not_mem_nil, or_false] at h
    rcases h with h | h | h
    · obtain ⟨-, rfl⟩ := LimiterOp.consumeOp.inj h
      norm_num
    · exact absurd h (by simp)
    · exact absurd h (by simp)
  have hb : BucketInv ⟨10, 5, 1000⟩ none := fun s hs => Option.noConfusion hs
  exact ⟨by norm_num, by norm_num, hn, hb,
    limiter_invariant_and_monotone ⟨10, 5, 1000⟩ none _ (by norm_num) (by norm_num) hn hb⟩

theorem executeAux_succ {α : Type} (cfg : RateLimitConfig) (rc : RetryConfig)
    (times : ℕ → ℚ) (fns : ℕ → FnOutcome α) (n : ℚ)
    (fuel attempt fnC conC alC : ℕ) (bucket : Option RateLimitState) :
    executeAux cfg rc times fns n (fuel + 1) attempt fnC conC alC bucket =
      if rc.maxRetries < attempt then
        ⟨.error (.retriesExhausted rc.maxRetries), fnC, conC, alC, bucket⟩
      else if (consume cfg (times conC) bucket n).1.allowed then
        match fns fnC with
        | .ok v =>
            ⟨.ok v, fnC + 1, conC + 1, alC + 1,
              some (consume cfg (times conC) bucket n).2⟩
        | .err msg =>
            if isThrottleMsg msg then
              if attempt + 1 ≤ rc.maxRetries then
                executeAux cfg rc times fns n fuel (attempt + 1) (fnC + 1)
                  (conC + 1) (alC + 1) (some (consume cfg (times conC) bucket n).2)
              else
                ⟨.error (.fnError msg), fnC + 1, conC + 1, alC + 1,
                  some (consume cfg (times conC) bucket n).2⟩
            else
              ⟨.error (.fnError msg), fnC + 1, conC + 1, alC + 1,
                some (consume cfg (times conC) bucket n).2⟩
      else if rc.maxRetries ≤ attempt then
        ⟨.error (.rateLimitExceeded attempt (consume cfg (times conC) bucket n).1.retryAfter),
          fnC, conC + 1, alC, some (consume cfg (times conC) bucket n).2⟩
      else
        executeAux cfg rc times fns n fuel (attempt + 1) fnC (conC + 1) alC
          (some (consume cfg (times conC) bucket n).2) := rfl

/-! ### Executor step lemmas -/

theorem consume_one_allowed (cfg : RateLimitConfig) (now : ℚ) (s : RateLimitState)
    (hrate : 0 ≤ cfg.refillRate) (hub : s.tokens ≤ cfg.maxTokens) (hlb : 1 ≤ s.tokens) :
    (consume cfg now (some s) 1).1.allowed = true ∧
    s.tokens - 1 ≤ (consume cfg now (some s) 1).2.tokens ∧
    (consume cfg now (some s) 1).2.tokens ≤ cfg.maxTokens := by
  have hmono := refillTokens_mono cfg now s hrate hub
  have hub' := refillTokens_le_max cfg now s hub
  have hall : (1 : ℚ) ≤ (refillTokens cfg now s).tokens := le_trans hlb hmono
  unfold consume getOrCreateState
  simp only [Option.getD_some]
  rw [if_pos hall]
  exact ⟨rfl, by dsimp only; linarith, by dsimp only; linarith⟩

theorem refillTokens_zero_rate (cfg : RateLimitConfig) (now : ℚ) (s : RateLimitState)
    (hmax : 0 ≤ cfg.maxTokens) (hrate : cfg.refillRate = 0) (hs : s.tokens = 0) :
    (refillTokens cfg now s).tokens = 0 := by
  unfold refillTokens
  split
  · dsimp only
    rw [hs, hrate, mul_zero, add_zero]
    exact min_eq_right hmax
  · exact hs

theorem consume_one_empty_zero_rate (cfg : RateLimitConfig) (now : ℚ)
    (s : RateLimitState) (hmax : 0 ≤ cfg.maxTokens) (hrate : cfg.refillRate = 0)
    (hs : s.tokens = 0) :
    (consume cfg now (some s) 1).1.allowed = false ∧
    (consume cfg now (some s) 1).1.retryAfter = some ⊤ ∧
    (consume cfg now (some s) 1).2.tokens = 0 := by
  have href := refillTokens_zero_rate cfg now s hmax hrate hs
  unfold consume getOrCreateState
  simp only [Option.getD_some]
  rw [if_neg (by rw [href]; norm_num)]
  refine ⟨rfl, ?_, href⟩
  dsimp only
  unfold retryAfterCalc
  rw [if_pos hrate]

/-- The refill is a no-op when no time has elapsed since `lastRefill`. -/
theorem refillTokens_no_elapse (cfg : RateLimitConfig) (s : RateLimitState) :
    refillTokens cfg s.lastRefill s = s := by
  unfold refillTokens
  rw [if_neg]
  simp

/-! ### C7: remote throttling retried once, then success -/

/-- C7: with at least two tokens in the bucket (and a sane configuration with
at least one retry allowed), if `fn` rejects with a throttling error exactly
once and then resolves, `execute` resolves with the success value, `fn` was
invoked exactly twice, the limiter was consulted twice and admitted both
consults — a fresh token per attempt, with no refund: in particular, when no
refill interval elapses across the call, the bucket ends with exactly
`t0 - 2` tokens. -/
theorem execute_throttle_then_success {α : Type} (cfg : RateLimitConfig)
    (rc : RetryConfig) (times : ℕ → ℚ) (fns : ℕ → FnOutcome α)
    (t0 l0 : ℚ) (v : α) (m : List Char)
    (ht2 : 2 ≤ t0) (htm : t0 ≤ cfg.maxTokens) (hrate : 0 ≤ cfg.refillRate)
    (hmr : 1 ≤ rc.maxRetries)
    (hf0 : fns 0 = .err m) (hthr : isThrottleMsg m = true) (hf1 : fns 1 = .ok v) :
    (execute cfg rc times fns 1 (some ⟨t0, l0⟩)).result = .ok v ∧
    (execute cfg rc times fns 1 (some ⟨t0, l0⟩)).fnCalls = 2 ∧
    (execute cfg rc times fns 1 (some ⟨t0, l0⟩)).consumeCalls = 2 ∧
    (execute cfg rc times fns 1 (some ⟨t0, l0⟩)).allowedCalls = 2 ∧
    ((∀ k, times k = l0) →
      (execute cfg rc times fns 1 (some ⟨t0, l0⟩)).bucket =
        some ⟨t0 - 2, l0⟩) := by
  have h1 := consume_one_allowed cfg (times 0) ⟨t0, l0⟩ hrate htm (by dsimp only; linarith)
  have h2 := consume_one_allowed cfg (times 1)
      (consume cfg (times 0) (some ⟨t0, l0⟩) 1).2 hrate h1.2.2
      (by have := h1.2.1; dsimp only at this ⊢; linarith)
  obtain ⟨k, hk⟩ : ∃ k, rc.maxRetries = k + 1 :=
    ⟨rc.maxRetries - 1, (Nat.succ_pred_eq_of_pos hmr).symm⟩
  have key : execute cfg rc times fns 1 (some ⟨t0, l0⟩) =
      ⟨.ok v, 2, 2, 2,
        some (consume cfg (times 1) (some (consume cfg (times 0) (some ⟨t0, l0⟩) 1).2) 1).2⟩ := by
    unfold execute
    rw [executeAux_succ cfg rc times fns 1 rc.maxRetries 0 0 0 0 (some ⟨t0, l0⟩)]
    rw [if_neg (Nat.not_lt_zero _), if_pos h1.1, hf0]
    dsimp only
    rw [if_pos hthr, if_pos (by omega : 0 + 1 ≤ rc.maxRetries), hk]
    rw [executeAux_succ cfg rc times fns 1 k 1 1 1 1 _]
    rw [if_neg (by omega : ¬ rc.maxRetries < 1), if_pos h2.1, hf1]
  refine ⟨by rw [key], by rw [key], by rw [key], by rw [key], ?_⟩
  intro htimes
  rw [key]
  have c1 : (consume cfg (times 0) (some ⟨t0, l0⟩) 1).2 = ⟨t0 - 1, l0⟩ := by
    unfold consume getOrCreateState
    simp only [Option.getD_some, htimes 0]
    rw [show refillTokens cfg l0 ⟨t0, l0⟩ = ⟨t0, l0⟩ from refillTokens_no_elapse cfg ⟨t0, l0⟩]
    rw [if_pos (by dsimp only; linarith : (1 : ℚ) ≤ RateLimitState.tokens ⟨t0, l0⟩)]
  rw [c1]
  unfold consume getOrCreateState
  simp only [Option.getD_some, htimes 1]
  rw [show refillTokens cfg l0 ⟨t0 - 1, l0⟩ = ⟨t0 - 1, l0⟩ from
    refillTokens_no_elapse cfg ⟨t0 - 1, l0⟩]
  rw [if_pos (by dsimp only; linarith : (1 : ℚ) ≤ RateLimitState.tokens ⟨t0 - 1, l0⟩)]
  dsimp only
  norm_num
  ring_nf

/-- C7 witness: `maxTokens = 10`, two tokens needed, `maxRetries = 3`,
a 429 failure then success, constant clock. -/
theorem execute_throttle_then_success_witness :
    (2 : ℚ) ≤ 2 ∧ (2 : ℚ) ≤ 10 ∧ (0 : ℚ) ≤ 5 ∧ (1 : ℕ) ≤ 3 ∧
    (fun j : ℕ => if j = 0 then FnOutcome.err "429: Rate limited".toList
                  else FnOutcome.ok (0 : ℕ)) 0 = .err "429: Rate limited".toList ∧
    isThrottleMsg "429: Rate limited".toList = true ∧
    (fun j : ℕ => if j = 0 then FnOutcome.err "429: Rate limited".toList
                  else FnOutcome.ok (0 : ℕ)) 1 = .ok 0 ∧
    ((execute ⟨10, 5, 1000⟩ ⟨3, 100, 1000⟩ (fun _ => 0)
        (fun j : ℕ => if j = 0 then FnOutcome.err "429: Rate limited".toList
                      else FnOutcome.ok (0 : ℕ)) 1 (some ⟨2, 0⟩)).result = .ok 0 ∧
     (execute ⟨10, 5, 1000⟩ ⟨3, 100, 1000⟩ (fun _ => 0)
        (fun j : ℕ => if j = 0 then FnOutcome.err "429: Rate limited".toList
                      else FnOutcome.ok (0 : ℕ)) 1 (some ⟨2, 0⟩)).fnCalls = 2 ∧
     (execute ⟨10, 5, 1000⟩ ⟨3, 100, 1000⟩ (fun _ => 0)
        (fun j : ℕ => if j = 0 then FnOutcome.err "429: Rate limited".toList
                      else FnOutcome.ok (0 : ℕ)) 1 (some ⟨2, 0⟩)).consumeCalls = 2 ∧
     (execute ⟨10, 5, 1000⟩ ⟨3, 100, 1000⟩ (fun _ => 0)
        (fun j : ℕ => if j = 0 then FnOutcome.err "429: Rate limited".toList
                      else FnOutcome.ok (0 : ℕ)) 1 (some ⟨2, 0⟩)).allowedCalls = 2 ∧
     ((∀ k : ℕ, (fun _ : ℕ => (0 : ℚ)) k = 0) →
       (execute ⟨10, 5, 1000⟩ ⟨3, 100, 1000⟩ (fun _ => 0)
          (fun j : ℕ => if j = 0 then FnOutcome.err "429: Rate limited".toList
                        else FnOutcome.ok (0 : ℕ)) 1 (some ⟨2, 0⟩)).bucket =
         some ⟨2 - 2, 0⟩)) := by
  refine ⟨le_refl _, by norm_num, by norm_num, by norm_num, rfl, by decide, rfl, ?_⟩
  exact execute_throttle_then_success ⟨10, 5, 1000⟩ ⟨3, 100, 1000⟩ (fun _ => 0) _
    2 0 0 "429: Rate limited".toList (le_refl _) (by norm_num) (by norm_num)
    (by norm_num) rfl (by decide) rfl

/-! ### C8: local exhaustion rejects after initial + 1 retry; plain errors
propagate immediately -/

/-- C8: (a) with an empty bucket, zero refill rate and `maxRetries = 1`,
`execute` rejects with the rate-limit-exceeded error after consulting the
limiter exactly twice (initial attempt plus one retry) and never invokes
`fn`; (b) an error from `fn` that does not signal throttling propagates
immediately: `fn` is invoked exactly once and its error is rethrown. -/
theorem execute_exhausted_and_plain_error {α : Type} :
    (∀ (cfg : RateLimitConfig) (rc : RetryConfig) (times : ℕ → ℚ)
        (fns : ℕ → FnOutcome α) (l0 : ℚ),
      0 ≤ cfg.maxTokens → cfg.refillRate = 0 → rc.maxRetries = 1 →
      (execute cfg rc times fns 1 (some ⟨0, l0⟩)).result =
          .error (.rateLimitExceeded 1 (some ⊤)) ∧
      (execute cfg rc times fns 1 (some ⟨0, l0⟩)).consumeCalls = 2 ∧
      (execute cfg rc times fns 1 (some ⟨0, l0⟩)).fnCalls = 0) ∧
    (∀ (cfg : RateLimitConfig) (rc : RetryConfig) (times : ℕ → ℚ)
        (fns : ℕ → FnOutcome α) (bucket : Option RateLimitState) (n : ℚ)
        (m : List Char),
      (consume cfg (times 0) bucket n).1.allowed = true →
      fns 0 = .err m → isThrottleMsg m = false →
      (execute cfg rc times fns n bucket).result = .error (.fnError m) ∧
      (execute cfg rc times fns n bucket).fnCalls = 1 ∧
      (execute cfg rc times fns n bucket).consumeCalls = 1) := by
  constructor
  · intro cfg rc times fns l0 hmax hrate hmr
    have d1 := consume_one_empty_zero_rate cfg (times 0) ⟨0, l0⟩ hmax hrate rfl
    have d2 := consume_one_empty_zero_rate cfg (times 1)
        (consume cfg (times 0) (some ⟨0, l0⟩) 1).2 hmax hrate d1.2.2
    have key : execute cfg rc times fns 1 (some ⟨0, l0⟩) =
        ⟨.error (.rateLimitExceeded 1 (some ⊤)), 0, 2, 0,
          some (consume cfg (times 1)
            (some (consume cfg (times 0) (some ⟨0, l0⟩) 1).2) 1).2⟩ := by
      unfold execute
      rw [executeAux_succ cfg rc times fns 1 rc.maxRetries 0 0 0 0 (some ⟨0, l0⟩)]
      rw [if_neg (Nat.not_lt_zero _),
        if_neg (by rw [d1.1]; exact Bool.false_ne_true),
        if_neg (by omega : ¬ rc.maxRetries ≤ 0), hmr]
      rw [executeAux_succ cfg rc times fns 1 0 1 0 1 0 _]
      rw [if_neg (by omega : ¬ rc.maxRetries < 1),
        if_neg (by rw [d2.1]; exact Bool.false_ne_true),
        if_pos (by omega : rc.maxRetries ≤ 1), d2.2.1]
    exact ⟨by rw [key], by rw [key], by rw [key]⟩
  · intro cfg rc times fns bucket n m hallow hf0 hm
    have key : execute cfg rc times fns n bucket =
        ⟨.error (.fnError m), 1, 1, 1, some (consume cfg (times 0) bucket n).2⟩ := by
      unfold execute
      rw [executeAux_succ cfg rc times fns n rc.maxRetries 0 0 0 0 bucket]
      rw [if_neg (Nat.not_lt_zero _), if_pos hallow, hf0]
      dsimp only
      rw [if_neg (by rw [hm]; exact Bool.false_ne_true)]
    exact ⟨by rw [key], by rw [key], by rw [key]⟩

/-- C8 witness: part (a) at config `⟨1, 0, 1000⟩` with an exhausted bucket
and `maxRetries = 1`; part (b) at a full bucket with a plain failure. -/
theorem execute_exhausted_and_plain_error_witness :
    ((0 : ℚ) ≤ 1 ∧ (0 : ℚ) = 0 ∧ (1 : ℕ) = 1 ∧
      ((execute ⟨1, 0, 1000⟩ ⟨1, 10, 100⟩ (fun _ => 0)
          (fun _ => FnOutcome.ok (0 : ℕ)) 1 (some ⟨0, 0⟩)).result =
            .error (.rateLimitExceeded 1 (some ⊤)) ∧
        (execute ⟨1, 0, 1000⟩ ⟨1, 10, 100⟩ (fun _ => 0)
          (fun _ => FnOutcome.ok (0 : ℕ)) 1 (some ⟨0, 0⟩)).consumeCalls = 2 ∧
        (execute ⟨1, 0, 1000⟩ ⟨1, 10, 100⟩ (fun _ => 0)
          (fun _ => FnOutcome.ok (0 : ℕ)) 1 (some ⟨0, 0⟩)).fnCalls = 0)) ∧
    ((consume ⟨10, 5, 1000⟩ ((fun _ : ℕ => (0 : ℚ)) 0) none 1).1.allowed = true ∧
      (fun _ : ℕ => FnOutcome.err (α := ℕ) "Function error".toList) 0 =
        .err "Function error".toList ∧
      isThrottleMsg "Function error".toList = false ∧
      ((execute ⟨10, 5, 1000⟩ ⟨3, 100, 1000⟩ (fun _ => 0)
          (fun _ => FnOutcome.err (α := ℕ) "Function error".toList) 1 none).result =
            .error (.fnError "Function error".toList) ∧
        (execute ⟨10, 5, 1000⟩ ⟨3, 100, 1000⟩ (fun _ => 0)
          (fun _ => FnOutcome.err (α := ℕ) "Function error".toList) 1 none).fnCalls = 1 ∧
        (execute ⟨10, 5, 1000⟩ ⟨3, 100, 1000⟩ (fun _ => 0)
          (fun _ => FnOutcome.err (α := ℕ) "Function error".toList) 1 none).consumeCalls = 1)) := by
  have hallow : (consume ⟨10, 5, 1000⟩ ((fun _ : ℕ => (0 : ℚ)) 0) none 1).1.allowed = true := by
    unfold consume getOrCreateState refillTokens
    norm_num
  refine ⟨⟨by norm_num, rfl, rfl,
    (execute_exhausted_and_plain_error (α := ℕ)).1 ⟨1, 0, 1000⟩ ⟨1, 10, 100⟩
      (fun _ => 0) (fun _ => FnOutcome.ok 0) 0 (by norm_num) rfl rfl⟩,
    hallow, rfl, by decide,
    (execute_exhausted_and_plain_error (α := ℕ)).2 ⟨10, 5, 1000⟩ ⟨3, 100, 1000⟩
      (fun _ => 0) (fun _ => FnOutcome.err (α := ℕ) "Function error".toList) none 1
      "Function error".toList hallow rfl (by decide)⟩

theorem find?_filter_fuse {α : Type} (l : List α) (p q : α → Bool) :
    (l.filter q).find? p = l.find? (fun a => q a && p a) := by
  induction l with
  | nil => rfl
  | cons a l ih =>
      by_cases hq : q a
      · by_cases hp : p a
        · simp [List.filter_cons, hq, hp, List.find?_cons]
        · simp [List.filter_cons, hq, hp, List.find?_cons, ih]
      · simp [List.filter_cons, hq, List.find?_cons, ih]

/-- C4: `getNextTask` scans the tasks in plan order and returns the first one
that is pending with all dependencies completed (`null` when none exists);
in the A/B/C scenario it yields `A`, then `B` after completing `A`, then `C`
after completing `B`, then `none`. -/
theorem getNextTask_plan_order_and_scenario :
    (∀ session : SessionState,
      getNextTask session = session.tasks.find?
        (fun t => t.status == TaskStatus.pending && depsCompleted session t)) ∧
    getNextTask sessionABC = some taskA ∧
    getNextTask sessionABC1 = some taskB ∧
    getNextTask sessionABC2 = some taskC ∧
    getNextTask sessionABC3 = none := by
  refine ⟨fun session => find?_filter_fuse _ _ _, ?_, ?_, ?_, ?_⟩ <;> decide

theorem filter_length_eq_all {α : Type} (l : List α) (p : α → Bool)
    (h : (l.filter p).length = l.length) : ∀ x ∈ l, p x := by
  induction l with
  | nil => intro x hx; cases hx
  | cons a l ih =>
      intro x hx
      by_cases hp : p a
      · rw [List.filter_cons_of_pos hp] at h
        simp only [List.length_cons, Nat.add_right_cancel_iff] at h
        rcases List.mem_cons.mp hx with rfl | hx'
        · exact hp
        · exact ih h x hx'
      · exfalso
        rw [List.filter_cons_of_neg hp] at h
        have := List.length_filter_le p l
        simp only [List.length_cons] at h
        omega

/-- C1: the per-task-mode guard is sound — `progress.completed =
progress.total` does force every session task to be `completed` — but in
single-session mode the claimed invariant fails on the code: on a success
`result` event the session status is set to `completed` while `session.tasks`
is never updated, so a session whose only task is still `pending` ends with
`status = completed`. -/
theorem session_completed_guard_and_single_mode_violation :
    (∀ session : SessionState,
      (getProgress session).completed = (getProgress session).total →
      ∀ t ∈ session.tasks, t.status = TaskStatus.completed) ∧
    (runShipEngineSingleExecution demoSessionC1 demoPlanC1 "job-1".toList "ts".toList
        [StreamEvent.resultEv ⟨true, some "http://pr".toList, none, none⟩]).2.session.status =
      SessionStatus.completed ∧
    (runShipEngineSingleExecution demoSessionC1 demoPlanC1 "job-1".toList "ts".toList
        [StreamEvent.resultEv ⟨true, some "http://pr".toList, none, none⟩]).2.session.tasks.map
      SessionTask.status = [TaskStatus.pending] := by
  refine ⟨?_, ?_, ?_⟩
  · intro session h t ht
    have hall := filter_length_eq_all session.tasks
      (fun t => t.status == TaskStatus.completed) h t ht
    exact of_decide_eq_true hall
  · rfl
  · rfl

/-- C1 witness: the sound direction of the guard applied to a session whose
single task is completed. -/
theorem session_completed_guard_witness :
    (getProgress demoSessionDone).completed = (getProgress demoSessionDone).total ∧
    demoTaskDone.status = TaskStatus.completed :=
  ⟨by decide,
    session_completed_guard_and_single_mode_violation.1 demoSessionDone (by decide)
      demoTaskDone (by decide)⟩

theorem updateTaskInPlan_find_same (plan : List PlanTask) (id : List Char)
    (status : TaskStatus) :
    (updateTaskInPlan plan id status).find? (fun u => u.id == id) =
      (plan.find? (fun u => u.id == id)).map (fun t => { t with status := status }) := by
  induction plan with
  | nil => rfl
  | cons t ts ih =>
      by_cases h : t.id = id
      · simp [updateTaskInPlan, h, List.find?_cons]
      · simp [updateTaskInPlan, h, List.find?_cons, ih]

theorem updateTaskInPlan_find_ne (plan : List PlanTask) (id k : List Char)
    (status : TaskStatus) (hne : k ≠ id) :
    (updateTaskInPlan plan id status).find? (fun u => u.id == k) =
      plan.find? (fun u => u.id == k) := by
  induction plan with
  | nil => rfl
  | cons t ts ih =>
      unfold updateTaskInPlan
      by_cases h : t.id = id
      · rw [if_pos h]
        have hik : (t.id == k) = false :=
          beq_eq_false_iff_ne.mpr (fun he => hne (he.symm.trans h))
        rw [List.find?_cons_of_neg _ (by simp [hik]),
          List.find?_cons_of_neg _ (by simp [hik])]
      · rw [if_neg h]
        by_cases hk : t.id = k
        · rw [List.find?_cons_of_pos _ (by simp [hk]),
            List.find?_cons_of_pos _ (by simp [hk])]
        · rw [List.find?_cons_of_neg _ (by simp [hk]),
            List.find?_cons_of_neg _ (by simp [hk]), ih]

theorem planHasId_update (plan : List PlanTask) (id k : List Char)
    (status : TaskStatus) (h : PlanHasId plan k) :
    PlanHasId (updateTaskInPlan plan id status) k := by
  unfold PlanHasId at h ⊢
  by_cases hk : k = id
  · subst hk
    rw [updateTaskInPlan_find_same]
    simpa using h
  · rw [updateTaskInPlan_find_ne plan id k status hk]
    exact h

theorem planStatus_completed_update (plan : List PlanTask) (id k : List Char)
    (h : planStatusOf plan k = some TaskStatus.completed) :
    planStatusOf (updateTaskInPlan plan id TaskStatus.completed) k =
      some TaskStatus.completed := by
  unfold planStatusOf at h ⊢
  by_cases hk : k = id
  · subst hk
    rw [updateTaskInPlan_find_same]
    cases hf : plan.find? (fun u => u.id == k) with
    | none => rw [hf] at h; cases h
    | some t => simp [hf]
  · rw [updateTaskInPlan_find_ne plan id k TaskStatus.completed hk]
    exact h

theorem planStatus_update_self (plan : List PlanTask) (id : List Char)
    (h : PlanHasId plan id) :
    planStatusOf (updateTaskInPlan plan id TaskStatus.completed) id =
      some TaskStatus.completed := by
  unfold PlanHasId at h
  unfold planStatusOf
  rw [updateTaskInPlan_find_same]
  cases hf : plan.find? (fun u => u.id == id) with
  | none => rw [hf] at h; cases h
  | some t => simp [hf]

theorem markTaskComplete_inv (pending : List PlanTask) (T : ℕ) (id : List Char)
    (st : EngineState) (h : MarkedInv pending st) :
    MarkedInv pending (markTaskComplete pending T id st) := by
  unfold markTaskComplete
  split
  · exact h
  · constructor
    · intro t ht
      exact planHasId_update _ _ _ _ (h.1 t ht)
    · intro t ht hc
      simp only [List.contains_cons] at hc
      rcases Bool.or_eq_true_iff.mp hc with hd | hd
      · have : t.id = id := by simpa using hd
        rw [← this]
        exact planStatus_update_self _ _ (h.1 t ht)
      · exact planStatus_completed_update _ _ _ (h.2 t ht hd)

theorem scanTasks_inv (pending : List PlanTask) (T : ℕ) (mention : List Char → Bool)
    (l : List PlanTask) (st : EngineState) (h : MarkedInv pending st) :
    MarkedInv pending (scanTasks pending T mention l st) := by
  induction l generalizing st with
  | nil => exact h
  | cons t rest ih =>
      unfold scanTasks
      split
      · exact ih _ (markTaskComplete_inv pending T t.id st h)
      · exact ih _ h

theorem appendCb_inv (pending : List PlanTask) (st : EngineState) (c : CbEvent)
    (h : MarkedInv pending st) : MarkedInv pending (appendCb st c) := h

theorem processAgentEvent_inv (pending : List PlanTask) (T : ℕ) (d : AgentData)
    (st : EngineState) (h : MarkedInv pending st) :
    MarkedInv pending (processAgentEvent pending T d st) := by
  unfold processAgentEvent
  apply appendCb_inv
  have h1 : MarkedInv pending (method1 pending T d st) := by
    unfold method1
    split
    · exact markTaskComplete_inv pending T _ st h
    · exact h
  have h2 : MarkedInv pending (method2 pending T d (method1 pending T d st)) := by
    unfold method2
    split
    · exact scanTasks_inv _ _ _ _ _ h1
    · exact h1
  unfold method3
  split
  · exact scanTasks_inv _ _ _ _ _ h2
  · exact h2

/-- Along a terminal-free prefix the loop preserves the invariant. -/
theorem runStream_inv (pending : List PlanTask) (T : ℕ) (ts : List Char)
    (evs : List StreamEvent) (st : EngineState)
    (hnt : ∀ e ∈ evs, e.isTerminal = false) (h : MarkedInv pending st) :
    MarkedInv pending (runStream pending T ts evs st).2 := by
  induction evs generalizing st with
  | nil => exact h
  | cons ev evs ih =>
      have hnt' : ∀ e ∈ evs, e.isTerminal = false :=
        fun e he => hnt e (List.mem_cons_of_mem ev he)
      cases ev with
      | heartbeat => exact ih st hnt' h
      | malformed => exact ih st hnt' h
      | statusEv m p => exact ih _ hnt' (appendCb_inv pending st _ h)
      | agentEv d => exact ih _ hnt' (processAgentEvent_inv pending T d st h)
      | resultEv r => exact absurd (hnt _ (List.mem_cons_self _ _)) (by simp [StreamEvent.isTerminal])
      | errorEv m => exact absurd (hnt _ (List.mem_cons_self _ _)) (by simp [StreamEvent.isTerminal])

/-- A terminal-free prefix of the stream just transforms the state. -/
theorem runStream_append (pending : List PlanTask) (T : ℕ) (ts : List Char)
    (evs rest : List StreamEvent) (st : EngineState)
    (hnt : ∀ e ∈ evs, e.isTerminal = false) :
    runStream pending T ts (evs ++ rest) st =
      runStream pending T ts rest (runStream pending T ts evs st).2 := by
  induction evs generalizing st with
  | nil => rfl
  | cons ev evs ih =>
      have hnt' : ∀ e ∈ evs, e.isTerminal = false :=
        fun e he => hnt e (List.mem_cons_of_mem ev he)
      cases ev with
      | heartbeat => exact ih st hnt'
      | malformed => exact ih st hnt'
      | statusEv m p => exact ih _ hnt'
      | agentEv d => exact ih _ hnt'
      | resultEv r => exact absurd (hnt _ (List.mem_cons_self _ _)) (by simp [StreamEvent.isTerminal])
      | errorEv m => exact absurd (hnt _ (List.mem_cons_self _ _)) (by simp [StreamEvent.isTerminal])

/-! ### Sweep lemmas -/

theorem sweepPending_ids (l : List PlanTask) (st : EngineState) :
    (sweepPending l st).completedTaskIds = st.completedTaskIds := by
  induction l generalizing st with
  | nil => rfl
  | cons t rest ih =>
      unfold sweepPending
      split
      · exact ih _
      · exact ih _

theorem sweepPending_count (l : List PlanTask) (st : EngineState) :
    (sweepPending l st).completedTasks =
      st.completedTasks +
        (l.filter (fun t => !st.completedTaskIds.contains t.id)).length := by
  induction l generalizing st with
  | nil => simp [sweepPending]
  | cons t rest ih =>
      unfold sweepPending
      split
      · next hc =>
          rw [ih]
          simp only [List.filter_cons]
          rw [if_pos (by simpa using hc)]
          simp only [List.length_cons]
          omega
      · next hc =>
          rw [ih]
          simp only [List.filter_cons]
          rw [if_neg (by simpa using hc)]

theorem sweepPending_preserves_completed (l : List PlanTask) (st : EngineState)
    (k : List Char) (h : planStatusOf st.planFile k = some TaskStatus.completed) :
    planStatusOf (sweepPending l st).planFile k = some TaskStatus.completed := by
  induction l generalizing st with
  | nil => exact h
  | cons t rest ih =>
      unfold sweepPending
      split
      · exact ih _ (planStatus_completed_update _ _ _ h)
      · exact ih _ h

theorem sweepPending_plan_completed (l : List PlanTask) (st : EngineState)
    (hpres : ∀ t ∈ l, PlanHasId st.planFile t.id)
    (hdone : ∀ t ∈ l, st.completedTaskIds.contains t.id = true →
      planStatusOf st.planFile t.id = some TaskStatus.completed) :
    ∀ t ∈ l, planStatusOf (sweepPending l st).planFile t.id = some TaskStatus.completed := by
  induction l generalizing st with
  | nil => intro t ht; cases ht
  | cons t rest ih =>
      intro u hu
      unfold sweepPending
      split
      · next hc =>
          have hself : planStatusOf
              (updateTaskInPlan st.planFile t.id TaskStatus.completed) t.id =
              some TaskStatus.completed :=
            planStatus_update_self _ _ (hpres t (List.mem_cons_self _ _))
          rcases List.mem_cons.mp hu with rfl | hu'
          · exact sweepPending_preserves_completed rest _ u.id hself
          · refine ih _ ?_ ?_ u hu'
            · intro w hw
              exact planHasId_update _ _ _ _ (hpres w (List.mem_cons_of_mem t hw))
            · intro w hw hcw
              exact planStatus_completed_update _ _ _
                (hdone w (List.mem_cons_of_mem t hw) hcw)
      · next hc =>
          have hcontains : st.completedTaskIds.contains t.id = true := by
            revert hc
            cases st.completedTaskIds.contains t.id <;> simp
          rcases List.mem_cons.mp hu with rfl | hu'
          · exact sweepPending_preserves_completed rest _ u.id
              (hdone u (List.mem_cons_self _ _) hcontains)
          · exact ih _ (fun w hw => hpres w (List.mem_cons_of_mem t hw))
              (fun w hw hcw => hdone w (List.mem_cons_of_mem t hw) hcw) u hu'

/-! ### C5: the terminal `result` event -/

/-- C5: for a stream made of a terminal-free prefix and a `result` event, the
run resolves with that result (success flag, PR URL and error are taken from
the event, and `completedTasks` is read after the sweep).  On success, every
pending task ends marked `completed` in the plan file, and the counter grows
by exactly the number of pending tasks the heuristics had not yet collected;
on failure, the plan file stays exactly as the heuristics left it. -/
theorem single_session_result_event (pending : List PlanTask) (T : ℕ)
    (ts : List Char) (evs : List StreamEvent) (st0 : EngineState) (r : ResultData)
    (hnt : ∀ e ∈ evs, e.isTerminal = false)
    (hids : st0.completedTaskIds = [])
    (hpres : ∀ t ∈ pending, PlanHasId st0.planFile t.id) :
    (runStream pending T ts (evs ++ [StreamEvent.resultEv r]) st0).1 =
      some { success := r.success, prUrl := r.prUrl,
             completedTasks :=
               (runStream pending T ts (evs ++ [StreamEvent.resultEv r]) st0).2.completedTasks,
             totalTasks := T, error := r.error } ∧
    (r.success = true →
      (∀ t ∈ pending, planStatusOf
          (runStream pending T ts (evs ++ [StreamEvent.resultEv r]) st0).2.planFile t.id =
            some TaskStatus.completed) ∧
      (runStream pending T ts (evs ++ [StreamEvent.resultEv r]) st0).2.completedTasks =
        (runStream pending T ts evs st0).2.completedTasks +
          (pending.filter (fun t =>
            !(runStream pending T ts evs st0).2.completedTaskIds.contains t.id)).length) ∧
    (r.success = false →
      (runStream pending T ts (evs ++ [StreamEvent.resultEv r]) st0).2.planFile =
        (runStream pending T ts evs st0).2.planFile) := by
  have hinv0 : MarkedInv pending st0 := by
    refine ⟨hpres, ?_⟩
    intro t ht hc
    rw [hids] at hc
    cases hc
  have hinv := runStream_inv pending T ts evs st0 hnt hinv0
  rw [runStream_append pending T ts evs [StreamEvent.resultEv r] st0 hnt]
  refine ⟨rfl, ?_, ?_⟩
  · intro hs
    constructor
    · intro t ht
      show planStatusOf (resultState pending ts r
        (runStream pending T ts evs st0).2).planFile t.id = some TaskStatus.completed
      unfold resultState
      rw [if_pos hs]
      exact sweepPending_plan_completed pending
        { (runStream pending T ts evs st0).2 with
          session := updateSessionOnResult ts r (runStream pending T ts evs st0).2.session }
        hinv.1 hinv.2 t ht
    · show (resultState pending ts r (runStream pending T ts evs st0).2).completedTasks = _
      unfold resultState
      rw [if_pos hs]
      show (sweepPending pending _).completedTasks = _
      rw [sweepPending_count]
  · intro hs
    show (resultState pending ts r (runStream pending T ts evs st0).2).planFile = _
    unfold resultState
    rw [if_neg (by rw [hs]; exact Bool.false_ne_true)]
    rfl

/-- C5 witness: empty prefix, one pending task, successful result. -/
theorem single_session_result_event_witness :
    (∀ e ∈ ([] : List StreamEvent), e.isTerminal = false) ∧
    ((⟨[], 0, demoPlanC1, demoSessionC1, []⟩ : EngineState).completedTaskIds = []) ∧
    (∀ t ∈ demoPlanC1, PlanHasId
      (⟨[], 0, demoPlanC1, demoSessionC1, []⟩ : EngineState).planFile t.id) ∧
    ((runStream demoPlanC1 1 "ts".toList
        ([] ++ [StreamEvent.resultEv ⟨true, none, none, none⟩])
        ⟨[], 0, demoPlanC1, demoSessionC1, []⟩).1 =
      some { success := true, prUrl := none,
             completedTasks :=
               (runStream demoPlanC1 1 "ts".toList
                 ([] ++ [StreamEvent.resultEv ⟨true, none, none, none⟩])
                 ⟨[], 0, demoPlanC1, demoSessionC1, []⟩).2.completedTasks,
             totalTasks := 1, error := none } ∧
     ((true : Bool) = true →
       (∀ t ∈ demoPlanC1, planStatusOf
           (runStream demoPlanC1 1 "ts".toList
             ([] ++ [StreamEvent.resultEv ⟨true, none, none, none⟩])
             ⟨[], 0, demoPlanC1, demoSessionC1, []⟩).2.planFile t.id =
             some TaskStatus.completed) ∧
       (runStream demoPlanC1 1 "ts".toList
           ([] ++ [StreamEvent.resultEv ⟨true, none, none, none⟩])
           ⟨[], 0, demoPlanC1, demoSessionC1, []⟩).2.completedTasks =
         (runStream demoPlanC1 1 "ts".toList []
             ⟨[], 0, demoPlanC1, demoSessionC1, []⟩).2.completedTasks +
           (demoPlanC1.filter (fun t =>
             !(runStream demoPlanC1 1 "ts".toList []
               ⟨[], 0, demoPlanC1, demoSessionC1, []⟩).2.completedTaskIds.contains
                 t.id)).length) ∧
     ((true : Bool) = false →
       (runStream demoPlanC1 1 "ts".toList
           ([] ++ [StreamEvent.resultEv ⟨true, none, none, none⟩])
           ⟨[], 0, demoPlanC1, demoSessionC1, []⟩).2.planFile =
         (runStream demoPlanC1 1 "ts".toList []
           ⟨[], 0, demoPlanC1, demoSessionC1, []⟩).2.planFile)) := by
  have h1 : ∀ e ∈ ([] : List StreamEvent), e.isTerminal = false := by
    intro e he; cases he
  have h2 : (⟨[], 0, demoPlanC1, demoSessionC1, []⟩ : EngineState).completedTaskIds = [] := rfl
  have h3 : ∀ t ∈ demoPlanC1, PlanHasId
      (⟨[], 0, demoPlanC1, demoSessionC1, []⟩ : EngineState).planFile t.id := by
    intro t ht
    simp only [demoPlanC1, List.mem_singleton] at ht
    subst ht
    unfold PlanHasId
    rfl
  exact ⟨h1, h2, h3,
    single_session_result_event demoPlanC1 1 "ts".toList []
      ⟨[], 0, demoPlanC1, demoSessionC1, []⟩ ⟨true, none, none, none⟩ h1 h2 h3⟩

/-! ### C6: commit heuristic marks exactly once -/

theorem includesStr_nil (hay : List Char) : includesStr [] hay = true := by
  cases hay with
  | nil => rfl
  | cons c rest => simp [includesStr, List.isPrefixOf]

theorem includesStr_cons_nil (c : Char) (cs : List Char) :
    includesStr (c :: cs) [] = false := rfl

theorem scanTasks_noop (pending : List PlanTask) (T : ℕ) (mention : List Char → Bool)
    (l : List PlanTask) (t : PlanTask) (st : EngineState)
    (hl : ∀ u ∈ l, mention u.id = true → u.id = t.id)
    (hc : st.completedTaskIds.contains t.id = true) :
    scanTasks pending T mention l st = st := by
  induction l with
  | nil => rfl
  | cons u rest ih =>
      unfold scanTasks
      have hcond : (!st.completedTaskIds.contains u.id && mention u.id) = false := by
        cases hmc : mention u.id
        · simp
        · rw [hl u (List.mem_cons_self _ _) hmc, hc]
          simp
      rw [if_neg (by rw [hcond]; exact Bool.false_ne_true)]
      exact ih (fun w hw hmw => hl w (List.mem_cons_of_mem u hw) hmw)

theorem markTaskComplete_contains_self (pending : List PlanTask) (T : ℕ)
    (id : List Char) (st : EngineState) :
    (markTaskComplete pending T id st).completedTaskIds.contains id = true := by
  unfold markTaskComplete
  split
  · next hc => exact hc
  · simp

theorem scanTasks_eq_mark (pending : List PlanTask) (T : ℕ)
    (mention : List Char → Bool) (l : List PlanTask) (t : PlanTask)
    (st : EngineState)
    (hl : ∀ u ∈ l, mention u.id = true → u.id = t.id)
    (hex : ∃ u ∈ l, mention u.id = true)
    (hids : st.completedTaskIds = []) :
    scanTasks pending T mention l st = markTaskComplete pending T t.id st := by
  induction l with
  | nil =>
      rcases hex with ⟨u, hu, _⟩
      cases hu
  | cons u rest ih =>
      unfold scanTasks
      by_cases hm : mention u.id = true
      · have hid : u.id = t.id := hl u (List.mem_cons_self _ _) hm
        have hcond : (!st.completedTaskIds.contains u.id && mention u.id) = true := by
          rw [hids, hm]
          simp
        rw [if_pos hcond, hid]
        exact scanTasks_noop pending T mention rest t _
          (fun w hw hmw => hl w (List.mem_cons_of_mem u hw) hmw)
          (markTaskComplete_contains_self pending T t.id st)
      · have hmf : mention u.id = false := by
          cases hmc : mention u.id
          · rfl
          · exact absurd hmc hm
        rw [if_neg (by rw [hmf, Bool.and_false]; exact Bool.false_ne_true)]
        refine ih (fun w hw hmw => hl w (List.mem_cons_of_mem u hw) hmw) ?_
        rcases hex with ⟨w, hw, hmw⟩
        rcases List.mem_cons.mp hw with rfl | hw'
        · exact absurd hmw hm
        · exact ⟨w, hw', hmw⟩

theorem find?_id_of_mem (pending : List PlanTask) (t : PlanTask) (ht : t ∈ pending) :
    ∃ u, pending.find? (fun u => u.id == t.id) = some u ∧ u.id = t.id := by
  have hsome : (pending.find? (fun u => u.id == t.id)).isSome := by
    rw [List.find?_isSome]
    exact ⟨t, ht, by simp⟩
  cases hf : pending.find? (fun u => u.id == t.id) with
  | none => rw [hf] at hsome; cases hsome
  | some u =>
      refine ⟨u, rfl, ?_⟩
      have := List.find?_some hf
      simpa using this

/-- C6: when the stream consists of a commit-tool agent event whose display
text mentions exactly one pending task id — delivered twice, so the same id
appears again in a later event — exactly that task is collected, its plan
entry is marked `completed`, and `onTaskComplete` fires exactly once for that
id and never for any other id. -/
theorem commit_heuristic_marks_exactly_once (pending : List PlanTask) (T : ℕ)
    (ts : List Char) (t : PlanTask) (d : AgentData) (st0 : EngineState)
    (ht : t ∈ pending)
    (htool : d.tool = some "Bash".toList)
    (hout : d.output = [])
    (hgc : includesStr "git commit".toList d.display = true)
    (hid : includesStr t.id d.display = true)
    (honly : ∀ u ∈ pending, includesStr u.id d.display = true → u.id = t.id)
    (hids : st0.completedTaskIds = [])
    (hcbs : st0.callbacks = [])
    (hpresent : PlanHasId st0.planFile t.id) :
    (runStream pending T ts [StreamEvent.agentEv d, StreamEvent.agentEv d]
        st0).2.completedTaskIds = [t.id] ∧
    planStatusOf (runStream pending T ts [StreamEvent.agentEv d, StreamEvent.agentEv d]
        st0).2.planFile t.id = some TaskStatus.completed ∧
    countTC t.id (runStream pending T ts [StreamEvent.agentEv d, StreamEvent.agentEv d]
        st0).2.callbacks = 1 ∧
    (∀ id, id ≠ t.id →
      countTC id (runStream pending T ts [StreamEvent.agentEv d, StreamEvent.agentEv d]
        st0).2.callbacks = 0) := by
  obtain ⟨u, hfind, hu⟩ := find?_id_of_mem pending t ht
  have hm2 : (d.tool == some "Bash".toList &&
      (includesStr "git commit".toList d.display ||
       includesStr "git commit".toList d.output)) = true := by
    rw [htool, hgc]
    simp
  have hl : ∀ w ∈ pending,
      (includesStr w.id d.display || includesStr w.id d.output) = true → w.id = t.id := by
    intro w hw hm
    rcases Bool.or_eq_true_iff.mp hm with h | h
    · exact honly w hw h
    · rw [hout] at h
      have hwnil : w.id = [] := by
        cases hwid : w.id with
        | nil => rfl
        | cons c cs =>
            rw [hwid, includesStr_cons_nil] at h
            cases h
      exact honly w hw (by rw [hwnil]; exact includesStr_nil d.display)
  have hexx : ∃ w ∈ pending,
      (includesStr w.id d.display || includesStr w.id d.output) = true :=
    ⟨t, ht, by rw [hid]; simp⟩
  have hmark : markTaskComplete pending T t.id st0 =
      { st0 with
        completedTaskIds := [t.id],
        completedTasks := st0.completedTasks + 1,
        planFile := updateTaskInPlan st0.planFile t.id TaskStatus.completed,
        callbacks := [CbEvent.onTaskComplete u,
          CbEvent.onProgress (st0.completedTasks + 1) T] } := by
    unfold markTaskComplete
    rw [if_neg (by rw [hids]; simp), hids, hcbs, hfind]
    rfl
  have e1 : ∀ st : EngineState, method1 pending T d st = st := by
    intro st
    unfold method1
    rw [hout]
    rfl
  have e3 : ∀ st : EngineState, method3 pending T d st = st := by
    intro st
    unfold method3
    rw [htool, show ((some "Bash".toList : Option (List Char)) ==
      some "TodoWrite".toList) = false from by decide, Bool.false_and]
    rfl
  have step1 : processAgentEvent pending T d st0 =
      appendCb (markTaskComplete pending T t.id st0) (CbEvent.onAgent d) := by
    unfold processAgentEvent
    rw [e1 st0]
    have e2 : method2 pending T d st0 = markTaskComplete pending T t.id st0 := by
      unfold method2
      rw [if_pos hm2]
      exact scanTasks_eq_mark pending T _ pending t st0 hl hexx hids
    rw [e2, e3]
  have hc1 : (appendCb (markTaskComplete pending T t.id st0)
      (CbEvent.onAgent d)).completedTaskIds.contains t.id = true := by
    show (markTaskComplete pending T t.id st0).completedTaskIds.contains t.id = true
    exact markTaskComplete_contains_self pending T t.id st0
  have step2 : processAgentEvent pending T d
      (appendCb (markTaskComplete pending T t.id st0) (CbEvent.onAgent d)) =
      appendCb (appendCb (markTaskComplete pending T t.id st0) (CbEvent.onAgent d))
        (CbEvent.onAgent d) := by
    unfold processAgentEvent
    rw [e1]
    have e2 : method2 pending T d
        (appendCb (markTaskComplete pending T t.id st0) (CbEvent.onAgent d)) =
        appendCb (markTaskComplete pending T t.id st0) (CbEvent.onAgent d) := by
      unfold method2
      rw [if_pos hm2]
      exact scanTasks_noop pending T _ pending t _ hl hc1
    rw [e2, e3]
  have hrun : (runStream pending T ts [StreamEvent.agentEv d, StreamEvent.agentEv d]
      st0).2 = processAgentEvent pending T d (processAgentEvent pending T d st0) := rfl
  rw [hrun, step1, step2, hmark]
  have hune : (u.id == t.id) = true := by simp [hu]
  refine ⟨rfl, planStatus_update_self _ _ hpresent, ?_, ?_⟩
  · simp [countTC, appendCb, List.filter_append, hune]
  · intro id hne
    have hune' : (u.id == id) = false := by
      rw [hu]
      exact beq_eq_false_iff_ne.mpr (fun he => hne he.symm)
    simp [countTC, appendCb, List.filter_append, hune']

/-- C6 witness: the double commit event on the one-task plan. -/
theorem commit_heuristic_marks_exactly_once_witness :
    demoTaskC6 ∈ demoPlanC1 ∧
    demoAgentC6.tool = some "Bash".toList ∧
    demoAgentC6.output = [] ∧
    includesStr "git commit".toList demoAgentC6.display = true ∧
    includesStr demoTaskC6.id demoAgentC6.display = true ∧
    (∀ u ∈ demoPlanC1,
      includesStr u.id demoAgentC6.display = true → u.id = demoTaskC6.id) ∧
    demoStC6.completedTaskIds = [] ∧
    demoStC6.callbacks = [] ∧
    PlanHasId demoStC6.planFile demoTaskC6.id ∧
    ((runStream demoPlanC1 1 "ts".toList
        [StreamEvent.agentEv demoAgentC6, StreamEvent.agentEv demoAgentC6]
        demoStC6).2.completedTaskIds = [demoTaskC6.id] ∧
     planStatusOf (runStream demoPlanC1 1 "ts".toList
        [StreamEvent.agentEv demoAgentC6, StreamEvent.agentEv demoAgentC6]
        demoStC6).2.planFile demoTaskC6.id = some TaskStatus.completed ∧
     countTC demoTaskC6.id (runStream demoPlanC1 1 "ts".toList
        [StreamEvent.agentEv demoAgentC6, StreamEvent.agentEv demoAgentC6]
        demoStC6).2.callbacks = 1 ∧
     (∀ id, id ≠ demoTaskC6.id →
       countTC id (runStream demoPlanC1 1 "ts".toList
          [StreamEvent.agentEv demoAgentC6, StreamEvent.agentEv demoAgentC6]
          demoStC6).2.callbacks = 0)) := by
  have hpres : PlanHasId demoStC6.planFile demoTaskC6.id := by
    unfold PlanHasId
    rfl
  have honly : ∀ u ∈ demoPlanC1,
      includesStr u.id demoAgentC6.display = true → u.id = demoTaskC6.id := by decide
  exact ⟨by decide, rfl, rfl, by decide, by decide, honly, rfl, rfl, hpres,
    commit_heuristic_marks_exactly_once demoPlanC1 1 "ts".toList demoTaskC6
      demoAgentC6 demoStC6 (by decide) rfl rfl (by decide) (by decide) honly rfl rfl hpres⟩

/-! ### C10: the shape of ids matched by the explicit marker -/

theorem markerCapture_shape (s id : List Char) (h : markerCapture s = some id) :
    ∃ A D, id = A ++ '-' :: D ∧ A ≠ [] ∧ D ≠ [] ∧
      (∀ c ∈ A, isUpperCh c = true) ∧ (∀ c ∈ D, isDigitCh c = true) := by
  unfold markerCapture at h
  split at h
  · cases h
  · next r1 _ =>
      split at h
      · cases h
      · next hemp =>
          split at h
          · next r3 heq =>
              split at h
              · cases h
              · next hdemp =>
                  split at h
                  · next =>
                      injection h with h
                      refine ⟨r1.takeWhile isUpperCh, r3.takeWhile isDigitCh, h.symm,
                        ?_, ?_, ?_, ?_⟩
                      · intro hc
                        rw [hc] at hemp
                        exact hemp rfl
                      · intro hc
                        rw [hc] at hdemp
                        exact hdemp rfl
                      · intro c hc
                        exact List.mem_takeWhile_imp hc
                      · intro c hc
                        exact List.mem_takeWhile_imp hc
                  · cases h
          · cases h

theorem matchTaskComplete_shape (s id : List Char) (h : matchTaskComplete s = some id) :
    ∃ A D, id = A ++ '-' :: D ∧ A ≠ [] ∧ D ≠ [] ∧
      (∀ c ∈ A, isUpperCh c = true) ∧ (∀ c ∈ D, isDigitCh c = true) := by
  induction s with
  | nil => cases h
  | cons c rest ih =>
      unfold matchTaskComplete at h
      split at h
      · next id' heq =>
          injection h with h
          exact h ▸ markerCapture_shape _ _ heq
      · exact ih h

/-- C10: method 1 only ever yields ids of shape `[A-Z]+-\d+`; on the
lowercase marker `<task-complete>task-1</task-complete>` it matches nothing,
and processing that event (a plain message, so the commit and todo heuristics
do not apply either) leaves the loop state unchanged apart from `onAgent`. -/
theorem marker_regex_uppercase_shape_only :
    (∀ s id : List Char, matchTaskComplete s = some id →
      ∃ A D, id = A ++ '-' :: D ∧ A ≠ [] ∧ D ≠ [] ∧
        (∀ c ∈ A, isUpperCh c = true) ∧ (∀ c ∈ D, isDigitCh c = true)) ∧
    matchTaskComplete "<task-complete>task-1</task-complete>".toList = none ∧
    processAgentEvent demoPlanC10 1 demoAgentC10 demoStC10 =
      appendCb demoStC10 (CbEvent.onAgent demoAgentC10) := by
  refine ⟨matchTaskComplete_shape, by decide, by decide⟩

/-- C10 witness: the shape property applied to a well-formed marker. -/
theorem marker_regex_uppercase_shape_only_witness :
    matchTaskComplete "<task-complete>AB-12</task-complete>".toList =
      some "AB-12".toList ∧
    (∃ A D, "AB-12".toList = A ++ '-' :: D ∧ A ≠ [] ∧ D ≠ [] ∧
      (∀ c ∈ A, isUpperCh c = true) ∧ (∀ c ∈ D, isDigitCh c = true)) :=
  ⟨by decide,
    marker_regex_uppercase_shape_only.1 "<task-complete>AB-12</task-complete>".toList
      "AB-12".toList (by decide)⟩

end PrAgent

